import Mathlib

/-!
Verification of the A* terrain path-planner in `src/pathfinding.py`.

Modelling conventions, chosen to keep every operational definition executable:

* Python floats are modelled exactly: heights and accumulated costs are `ℚ`
  (every arithmetic step of the program on them is rational), and the only
  irrational quantities — the Euclidean distance factors produced by
  `np.sqrt` — are carried symbolically.  A frontier priority is the pair
  `⟨cost, hsq⟩` denoting the real number `cost + √hsq`, which is exactly the
  value `new_cost + np.sqrt((TARGET[0]-nx)**2 + (TARGET[1]-ny)**2)` the
  program computes.  Priorities are compared by `Priority.cmp`, a decidable
  procedure proved below (`priorityCmp_lt_iff`, `priorityCmp_eq_iff`) to
  agree with the real-number order, so the whole search evaluates by `decide`.
* `heapq` is a binary min-heap over Python tuples `(priority, (nx, ny))`
  ordered lexicographically; `heappop` always returns a minimal element, and
  two entries comparing equal under that order are identical here (equal
  coordinate forces equal heuristic term and hence equal cost).  A heap is
  therefore observationally a bag from which `heappop` removes a minimum, and
  is modelled as a `List Entry` with `heappop` selecting the minimum.
* A grid is a numpy structured array produced by `generate_grid`: the cell
  stored at index `[x, y]` carries coordinates `(x, y)`.  `Grid.get?` models
  numpy 2-d integer indexing, including wraparound of negative indices within
  `[-size, 0)` and `IndexError` (`none`) outside `[-size, size)`.
* The `while` loop of `find_fastest_path` and the reconstruction loop of
  `reconstruct_path` are given explicit fuel; running out of fuel is the
  distinguished results `SearchResult.outOfFuel` / `ReconRes.outOfFuel`, so
  termination and non-termination are provable statements.
-/

set_option maxHeartbeats 1000000
set_option maxRecDepth 4000
set_option linter.unusedVariables false

/- Batteries marks the arithmetic on `Rat` `@[irreducible]`, which blocks the
elaborator's evaluation of `decide` proofs over concrete search runs; restoring
the default reducibility for this file lets those proofs evaluate.  (The kernel
ignores reducibility attributes, so nothing about the trust story changes.) -/
attribute [local semireducible] Rat.add Rat.mul Rat.sub Rat.inv

abbrev Coord : Type := ℤ × ℤ

inductive Terrain : Type
  | sand
  | mud
  | asphalt
deriving DecidableEq, Repr

structure Cell : Type where
  coords : Coord
  terrain : Terrain
  height : ℚ
deriving DecidableEq, Repr

/-- Module constant `GRID_SIZE = 100`. -/
def GRID_SIZE : ℤ := 100

/-- Module constant `TARGET = (50, 50)`. -/
def TARGET : Coord := (50, 50)

/-- Module constant `START = (0, 0)` (used only by the script's main block). -/
def START : Coord := (0, 0)

/-- Module constant `TERRAIN_SPEED = {"sand": 0.7, "mud": 0.4, "asphalt": 1.5}`
composed with `terrain_types = {0: "sand", 1: "mud", 2: "asphalt"}`; the three
decimal literals are exact binary-representable-or-not, here exact rationals. -/
def TERRAIN_SPEED : Terrain → ℚ
  | .sand => 7 / 10
  | .mud => 2 / 5
  | .asphalt => 3 / 2

/-- Module constant `SLOPE_LIMIT = 0.2`. -/
def SLOPE_LIMIT : ℚ := 1 / 5

/-- `terrain_cost = 1 / TERRAIN_SPEED[terrain_types[neighbor["terrain"]]]`. -/
def terrain_cost (neighbor : Cell) : ℚ := 1 / TERRAIN_SPEED neighbor.terrain

/-- `slope_cost = 1 + abs(height_diff) / SLOPE_LIMIT` where
`height_diff = neighbor["height"] - current["height"]`. -/
def slope_cost (current neighbor : Cell) : ℚ :=
  1 + |neighbor.height - current.height| / SLOPE_LIMIT

/-- `(x2 - x1)**2 + (y2 - y1)**2` for two coordinate pairs. -/
def coordDistSq (a b : Coord) : ℤ := (b.1 - a.1) ^ 2 + (b.2 - a.2) ^ 2

/-- Euclidean distance between two coordinate pairs, `np.sqrt` of the integer
sum of squares. -/
noncomputable def euclidDist (a b : Coord) : ℝ :=
  Real.sqrt ((coordDistSq a b : ℤ) : ℝ)

structure Grid : Type where
  size : ℕ
  cellData : ℤ → ℤ → Terrain × ℚ

/-- `calculate_cost(current, neighbor, grid)`: `distance_cost * terrain_cost *
slope_cost`.  The `grid` argument is accepted and ignored exactly as in the
source. -/
noncomputable def calculate_cost (current neighbor : Cell) (grid : Grid) : ℝ :=
  euclidDist current.coords neighbor.coords * (terrain_cost neighbor : ℝ) *
    (slope_cost current neighbor : ℝ)

/-- numpy 2-d integer indexing of the array built by `generate_grid`: an index
in `[-size, 0)` wraps by `+ size`, one outside `[-size, size)` raises
`IndexError` (`none`); the stored cell's `coordinates` field is the (wrapped)
index pair, as `generate_grid` wrote it. -/
def Grid.get? (g : Grid) (i j : ℤ) : Option Cell :=
  if (-(g.size : ℤ) ≤ i ∧ i < (g.size : ℤ)) ∧ (-(g.size : ℤ) ≤ j ∧ j < (g.size : ℤ)) then
    let i' := if i < 0 then i + (g.size : ℤ) else i
    let j' := if j < 0 then j + (g.size : ℤ) else j
    some ⟨(i', j'), (g.cellData i' j').1, (g.cellData i' j').2⟩
  else none

def natSqrtAux (n : ℕ) : ℕ → ℕ → ℕ
  | 0, k => k
  | fuel + 1, k => if (k + 1) * (k + 1) ≤ n then natSqrtAux n fuel (k + 1) else k

/-- Integer square root, the largest `m` with `m * m ≤ n`, by structural
recursion of depth about `√n` so that it evaluates inside the kernel. -/
def natSqrt (n : ℕ) : ℕ := natSqrtAux n n 0

/-- The exact rational value of the source's `calculate_cost` on the cell pairs
`find_fastest_path` feeds it.  There the two cells come from one grid at
indices differing in exactly one axis, so one coordinate difference is `0` and
the other is an integer; the squared distance is then a perfect square and
`natSqrt` recovers `np.sqrt` of it exactly (`move_cost_eq_calculate_cost`). -/
def move_cost (current neighbor : Cell) : ℚ :=
  (natSqrt (coordDistSq current.coords neighbor.coords).toNat : ℚ) *
    terrain_cost neighbor * slope_cost current neighbor

/-- A frontier priority: the pair denotes the real number `cost + √hsq`.  The
search stores `cost = new_cost` and `hsq = (TARGET[0]-nx)**2 + (TARGET[1]-ny)**2`. -/
structure Priority : Type where
  cost : ℚ
  hsq : ℕ
deriving DecidableEq, Repr

noncomputable def Priority.toReal (p : Priority) : ℝ :=
  (p.cost : ℝ) + Real.sqrt (p.hsq : ℝ)

/-- The squared Euclidean distance to the module constant `TARGET` — the
number under the `np.sqrt` of the priority the source pushes. -/
def heurSq (c : Coord) : ℕ := ((TARGET.1 - c.1) ^ 2 + (TARGET.2 - c.2) ^ 2).toNat

def cmpQ (u v : ℚ) : Ordering := if u < v then .lt else if v < u then .gt else .eq

/-- Decides the order of `√a` and `√b + d` by rational arithmetic alone
(correctness: `cmpSqrtAdd_correct`). -/
def cmpSqrtAdd (a b : ℕ) (d : ℚ) : Ordering :=
  if d < 0 ∧ (b : ℚ) < d ^ 2 then .gt
  else if 0 ≤ d then
    if (a : ℚ) - (b : ℚ) - d ^ 2 < 0 then .lt
    else cmpQ (((a : ℚ) - (b : ℚ) - d ^ 2) ^ 2) (4 * d ^ 2 * (b : ℚ))
  else if 0 < (a : ℚ) - (b : ℚ) - d ^ 2 then .gt
  else if (a : ℚ) - (b : ℚ) - d ^ 2 = 0 then (if b = 0 then .eq else .gt)
  else cmpQ (4 * d ^ 2 * (b : ℚ)) (((a : ℚ) - (b : ℚ) - d ^ 2) ^ 2)

/-- Order of two priorities as real numbers: `p.toReal` versus `q.toReal`. -/
def Priority.cmp (p q : Priority) : Ordering := cmpSqrtAdd p.hsq q.hsq (q.cost - p.cost)

/-- A frontier entry, the Python tuple `(priority, (nx, ny))`. -/
abbrev Entry : Type := Priority × Coord

/-- Lexicographic order on coordinate pairs (Python tuple comparison). -/
def coordLe (a b : Coord) : Bool := decide (a.1 < b.1 ∨ (a.1 = b.1 ∧ a.2 ≤ b.2))

/-- Python tuple order on `(priority, coordinate)`: by priority value first,
ties broken by the coordinate tuple. -/
def Entry.le (e₁ e₂ : Entry) : Bool :=
  match Priority.cmp e₁.1 e₂.1 with
  | .lt => true
  | .eq => coordLe e₁.2 e₂.2
  | .gt => false

def minEntry : Entry → List Entry → Entry
  | e, [] => e
  | e, x :: xs => minEntry (if Entry.le e x then e else x) xs

def eraseEntry : List Entry → Entry → List Entry
  | [], _ => []
  | x :: xs, e => if x = e then xs else x :: eraseEntry xs e

/-- `heapq.heappop`: removes and returns a minimal entry under the tuple
order.  (Two distinct entries never compare equal: equal coordinates force
equal heuristic terms, and a coordinate is re-pushed only with a strictly
smaller cost, so the minimum is unambiguous.) -/
def heappop (l : List Entry) : Option (Entry × List Entry) :=
  match l with
  | [] => none
  | x :: xs =>
    let m := minEntry x xs
    some (m, eraseEntry (x :: xs) m)

/-- `heapq.heappush`: the heap holds a bag of entries; pushing adds one. -/
def heappush (l : List Entry) (e : Entry) : List Entry := l ++ [e]

/-- Python `dict` lookup on a coordinate-keyed insertion-ordered map. -/
def mget {α : Type} : List (Coord × α) → Coord → Option α
  | [], _ => none
  | (k', v) :: rest, k => if k' = k then some v else mget rest k

/-- Python `dict` assignment: update in place, else append. -/
def mset {α : Type} : List (Coord × α) → Coord → α → List (Coord × α)
  | [], k, v => [(k, v)]
  | (k', v') :: rest, k, v => if k' = k then (k, v) :: rest else (k', v') :: mset rest k v

inductive PyErr : Type
  | indexError
  | keyError
deriving DecidableEq, Repr

structure SState : Type where
  open_set : List Entry
  came_from : List (Coord × Coord)
  cost_so_far : List (Coord × ℚ)
deriving DecidableEq, Repr

/-- The neighbour offsets `[(-1, 0), (1, 0), (0, -1), (0, 1)]`. -/
def dirs : List (ℤ × ℤ) := [(-1, 0), (1, 0), (0, -1), (0, 1)]

/-- One pass of the inner `for dx, dy in ...` body of `find_fastest_path`:
bounds test against the module constant `GRID_SIZE`, then in evaluation order
`grid[nx, ny]`, `cost_so_far[current]`, `grid[x, y]`, the cost computation and
the guarded update-plus-push. -/
def expand1 (grid : Grid) (current : Coord) (s : SState) (d : ℤ × ℤ) :
    Except PyErr SState :=
  let nx := current.1 + d.1
  let ny := current.2 + d.2
  if (0 ≤ nx ∧ nx < GRID_SIZE) ∧ (0 ≤ ny ∧ ny < GRID_SIZE) then
    match grid.get? nx ny with
    | none => .error .indexError
    | some neighbor =>
      match mget s.cost_so_far current with
      | none => .error .keyError
      | some ccost =>
        match grid.get? current.1 current.2 with
        | none => .error .indexError
        | some curCell =>
          let new_cost := ccost + move_cost curCell neighbor
          let improved : Bool :=
            match mget s.cost_so_far (nx, ny) with
            | none => true
            | some old => decide (new_cost < old)
          if improved then
            .ok { open_set := heappush s.open_set (⟨new_cost, heurSq (nx, ny)⟩, (nx, ny)),
                  came_from := mset s.came_from (nx, ny) current,
                  cost_so_far := mset s.cost_so_far (nx, ny) new_cost }
          else .ok s
  else .ok s

inductive StepRes : Type
  | done (came_from : List (Coord × Coord)) (cost_so_far : List (Coord × ℚ))
  | cont (s : SState)
  | fail (e : PyErr)
deriving DecidableEq, Repr

/-- One iteration of the `while open_set:` loop: pop the minimum, break if it
is the target, otherwise expand the four neighbours. -/
def stepLoop (grid : Grid) (target : Coord) (s : SState) : StepRes :=
  match heappop s.open_set with
  | none => .done s.came_from s.cost_so_far
  | some ((_, current), rest) =>
    if current = target then .done s.came_from s.cost_so_far
    else
      match dirs.foldlM (expand1 grid current) { s with open_set := rest } with
      | .error e => .fail e
      | .ok s' => .cont s'

inductive SearchResult : Type
  | ok (came_from : List (Coord × Coord)) (cost_so_far : List (Coord × ℚ))
  | fail (e : PyErr)
  | outOfFuel
deriving DecidableEq, Repr

def runLoop (grid : Grid) (target : Coord) : ℕ → SState → SearchResult
  | 0, _ => .outOfFuel
  | fuel + 1, s =>
    match stepLoop grid target s with
    | .done cf cs => .ok cf cs
    | .fail e => .fail e
    | .cont s' => runLoop grid target fuel s'

/-- `open_set = [(0, start)]`, `came_from = {}`, `cost_so_far = {start: 0}`.
The pushed literal priority `0` denotes `0 + √0 = 0`. -/
def initState (start : Coord) : SState :=
  { open_set := [(⟨0, 0⟩, start)], came_from := [], cost_so_far := [(start, 0)] }

/-- `find_fastest_path(grid, start, target)`, with explicit loop fuel. -/
def find_fastest_path (grid : Grid) (start target : Coord) (fuel : ℕ) : SearchResult :=
  runLoop grid target fuel (initState start)

/-- The state after at most `n` continuing iterations of the search loop
(stops early at a `done` or `fail` boundary). -/
def iterN (grid : Grid) (target : Coord) : ℕ → SState → SState
  | 0, s => s
  | n + 1, s =>
    match stepLoop grid target s with
    | .cont s' => iterN grid target n s'
    | _ => s

inductive ReconRes : Type
  | ok (path : List Coord)
  | keyError (c : Coord)
  | outOfFuel
deriving DecidableEq, Repr

/-- The `while current != start:` loop of `reconstruct_path`, with the fuel
spent one unit per predecessor step; `path` is the Python list in append
order.  A missing predecessor is Python's `KeyError`. -/
def reconAux (came_from : List (Coord × Coord)) (start : Coord) :
    ℕ → Coord → List Coord → ReconRes
  | 0, current, path =>
    if current = start then .ok ((path ++ [start]).reverse) else .outOfFuel
  | fuel + 1, current, path =>
    if current = start then .ok ((path ++ [start]).reverse)
    else
      match mget came_from current with
      | none => .keyError current
      | some prev => reconAux came_from start fuel prev (path ++ [current])

/-- `reconstruct_path(came_from, start, target)` with explicit loop fuel. -/
def reconstruct_path (came_from : List (Coord × Coord)) (start target : Coord)
    (fuel : ℕ) : ReconRes :=
  reconAux came_from start fuel target []

/-- A uniform test grid: every cell has terrain asphalt and height `0`
(`generate_grid` output with those draws). -/
def gridU (n : ℕ) : Grid := { size := n, cellData := fun _ _ => (Terrain.asphalt, 0) }

/-! ### Faithfulness of the executable model

The priority comparison `Priority.cmp` decides the order of the denoted real
numbers, and `move_cost` is the source's `calculate_cost` on the cell pairs
the search produces. -/

lemma cmpQ_lt_iff {u v : ℚ} : cmpQ u v = .lt ↔ u < v := by
  unfold cmpQ
  split_ifs with h1 h2 <;> simp_all [le_of_lt]

lemma cmpQ_eq_iff {u v : ℚ} : cmpQ u v = .eq ↔ u = v := by
  unfold cmpQ
  split_ifs with h1 h2
  · simp [show u ≠ v from ne_of_lt h1]
  · simp [show u ≠ v from (ne_of_lt h2).symm]
  · simp [le_antisymm (le_of_not_lt h2) (le_of_not_lt h1)]

lemma lt_iff_sq_lt {x t : ℝ} (hx : 0 ≤ x) (ht : 0 ≤ t) : x < t ↔ x ^ 2 < t ^ 2 := by
  constructor
  · intro h
    exact pow_lt_pow_left₀ h hx two_ne_zero
  · intro h
    exact lt_of_pow_lt_pow_left₀ 2 ht h

lemma eq_iff_sq_eq {x t : ℝ} (hx : 0 ≤ x) (ht : 0 ≤ t) : x = t ↔ x ^ 2 = t ^ 2 := by
  constructor
  · intro h
    rw [h]
  · intro h
    have h2 := congrArg Real.sqrt h
    rwa [Real.sqrt_sq hx, Real.sqrt_sq ht] at h2

lemma cmpSqrtAdd_correct (a b : ℕ) (d : ℚ) :
    (cmpSqrtAdd a b d = .lt ↔ Real.sqrt (a : ℝ) < Real.sqrt (b : ℝ) + (d : ℝ)) ∧
    (cmpSqrtAdd a b d = .eq ↔ Real.sqrt (a : ℝ) = Real.sqrt (b : ℝ) + (d : ℝ)) := by
  have hx : (0 : ℝ) ≤ Real.sqrt (a : ℝ) := Real.sqrt_nonneg _
  have hy : (0 : ℝ) ≤ Real.sqrt (b : ℝ) := Real.sqrt_nonneg _
  have hx2 : Real.sqrt (a : ℝ) ^ 2 = (a : ℝ) := Real.sq_sqrt (by positivity)
  have hy2 : Real.sqrt (b : ℝ) ^ 2 = (b : ℝ) := Real.sq_sqrt (by positivity)
  set x : ℝ := Real.sqrt (a : ℝ)
  set y : ℝ := Real.sqrt (b : ℝ)
  have expand : (y + (d : ℝ)) ^ 2 = (b : ℝ) + 2 * (d : ℝ) * y + (d : ℝ) ^ 2 := by
    have : (y + (d : ℝ)) ^ 2 = y ^ 2 + 2 * (d : ℝ) * y + (d : ℝ) ^ 2 := by ring
    rw [this, hy2]
  unfold cmpSqrtAdd
  split_ifs with h1 hd hL hLpos hL0 hb0
  · -- d < 0 and b < d²: √b + d < 0 ≤ √a
    obtain ⟨hdneg, hblt⟩ := h1
    have hdR : (0 : ℝ) < -(d : ℝ) := by
      have : (d : ℝ) < 0 := by exact_mod_cast hdneg
      linarith
    have hyd : y < -(d : ℝ) := by
      rw [Real.sqrt_lt' hdR]
      have : ((b : ℚ) : ℝ) < ((d : ℚ) : ℝ) ^ 2 := by exact_mod_cast hblt
      push_cast at this ⊢
      nlinarith [this]
    have hneg : y + (d : ℝ) < 0 := by linarith
    constructor
    · exact iff_of_false (by simp) (by intro h; linarith)
    · exact iff_of_false (by simp) (by intro h; linarith)
  · -- 0 ≤ d and L < 0: √a < √b + d
    have ht : (0 : ℝ) ≤ y + (d : ℝ) := by
      have : (0 : ℝ) ≤ (d : ℝ) := by exact_mod_cast hd
      linarith
    have hkey : x < y + (d : ℝ) := by
      rw [lt_iff_sq_lt hx ht, hx2, expand]
      have hLR : (a : ℝ) - (b : ℝ) - (d : ℝ) ^ 2 < 0 := by exact_mod_cast hL
      have hR : (0 : ℝ) ≤ 2 * (d : ℝ) * y := by
        have : (0 : ℝ) ≤ (d : ℝ) := by exact_mod_cast hd
        positivity
      linarith
    constructor
    · exact iff_of_true rfl hkey
    · exact iff_of_false (by simp) (ne_of_lt hkey)
  · -- 0 ≤ d and 0 ≤ L: compare L² with 4d²b
    have hdR : (0 : ℝ) ≤ (d : ℝ) := by exact_mod_cast hd
    have ht : (0 : ℝ) ≤ y + (d : ℝ) := by linarith
    have hLR : (0 : ℝ) ≤ (a : ℝ) - (b : ℝ) - (d : ℝ) ^ 2 := by
      have := le_of_not_lt hL
      exact_mod_cast this
    have hRnn : (0 : ℝ) ≤ 2 * (d : ℝ) * y := by positivity
    have hR2 : (2 * (d : ℝ) * y) ^ 2 = 4 * (d : ℝ) ^ 2 * (b : ℝ) := by
      have : (2 * (d : ℝ) * y) ^ 2 = 4 * (d : ℝ) ^ 2 * y ^ 2 := by ring
      rw [this, hy2]
    have hkey : x < y + (d : ℝ) ↔
        ((a : ℝ) - (b : ℝ) - (d : ℝ) ^ 2) < 2 * (d : ℝ) * y := by
      rw [lt_iff_sq_lt hx ht, hx2, expand]
      constructor <;> intro h <;> linarith
    have hkeyeq : x = y + (d : ℝ) ↔
        ((a : ℝ) - (b : ℝ) - (d : ℝ) ^ 2) = 2 * (d : ℝ) * y := by
      rw [eq_iff_sq_eq hx ht, hx2, expand]
      constructor <;> intro h <;> linarith
    constructor
    · rw [cmpQ_lt_iff, hkey, lt_iff_sq_lt hLR hRnn, hR2]
      constructor <;> intro h <;> exact_mod_cast h
    · rw [cmpQ_eq_iff, hkeyeq, eq_iff_sq_eq hLR hRnn, hR2]
      constructor <;> intro h <;> exact_mod_cast h
  · -- d < 0, d² ≤ b, 0 < L: √b + d ≤ x is strict
    have hdneg : (d : ℚ) < 0 := lt_of_not_le hd
    have hd2b : (d : ℚ) ^ 2 ≤ (b : ℚ) := by
      rcases not_and_or.mp h1 with h | h
      · exact absurd hdneg h
      · exact le_of_not_lt h
    have ht : (0 : ℝ) ≤ y + (d : ℝ) := by
      have h1R : ((d : ℚ) : ℝ) ^ 2 ≤ ((b : ℕ) : ℝ) := by exact_mod_cast hd2b
      have h2R : Real.sqrt ((d : ℝ) ^ 2) ≤ y := Real.sqrt_le_sqrt (by linarith)
      rw [Real.sqrt_sq_eq_abs] at h2R
      have : -(d : ℝ) ≤ |(d : ℝ)| := neg_le_abs _
      linarith
    have hLR : (0 : ℝ) < (a : ℝ) - (b : ℝ) - (d : ℝ) ^ 2 := by exact_mod_cast hLpos
    have hRup : 2 * (d : ℝ) * y ≤ 0 := by
      have hdR : (d : ℝ) < 0 := by exact_mod_cast hdneg
      have : 2 * (d : ℝ) ≤ 0 := by linarith
      exact mul_nonpos_of_nonpos_of_nonneg this hy
    have hkey : x < y + (d : ℝ) ↔
        ((a : ℝ) - (b : ℝ) - (d : ℝ) ^ 2) < 2 * (d : ℝ) * y := by
      rw [lt_iff_sq_lt hx ht, hx2, expand]
      constructor <;> intro h <;> linarith
    have hkeyeq : x = y + (d : ℝ) ↔
        ((a : ℝ) - (b : ℝ) - (d : ℝ) ^ 2) = 2 * (d : ℝ) * y := by
      rw [eq_iff_sq_eq hx ht, hx2, expand]
      constructor <;> intro h <;> linarith
    constructor
    · exact iff_of_false (by simp) (by rw [hkey]; intro h; linarith)
    · exact iff_of_false (by simp) (by rw [hkeyeq]; intro h; linarith)
  · -- unreachable: d < 0, d² ≤ b, L = 0, b = 0
    exfalso
    have hdneg : (d : ℚ) < 0 := lt_of_not_le hd
    have hd2b : (d : ℚ) ^ 2 ≤ (b : ℚ) := by
      rcases not_and_or.mp h1 with h | h
      · exact absurd hdneg h
      · exact le_of_not_lt h
    rw [hb0] at hd2b
    push_cast at hd2b
    nlinarith [hd2b, hdneg]
  · -- d < 0, d² ≤ b, L = 0, b ≠ 0: 0 = L > 2d√b
    have hdneg : (d : ℚ) < 0 := lt_of_not_le hd
    have hd2b : (d : ℚ) ^ 2 ≤ (b : ℚ) := by
      rcases not_and_or.mp h1 with h | h
      · exact absurd hdneg h
      · exact le_of_not_lt h
    have hbpos : (0 : ℝ) < (b : ℝ) := by
      have : 0 < b := Nat.pos_of_ne_zero hb0
      exact_mod_cast this
    have hypos : 0 < y := Real.sqrt_pos.mpr hbpos
    have ht : (0 : ℝ) ≤ y + (d : ℝ) := by
      have h1R : ((d : ℚ) : ℝ) ^ 2 ≤ ((b : ℕ) : ℝ) := by exact_mod_cast hd2b
      have h2R : Real.sqrt ((d : ℝ) ^ 2) ≤ y := Real.sqrt_le_sqrt (by linarith)
      rw [Real.sqrt_sq_eq_abs] at h2R
      have : -(d : ℝ) ≤ |(d : ℝ)| := neg_le_abs _
      linarith
    have hLR : (a : ℝ) - (b : ℝ) - (d : ℝ) ^ 2 = 0 := by exact_mod_cast hL0
    have hRneg : 2 * (d : ℝ) * y < 0 := by
      have hdR : (d : ℝ) < 0 := by exact_mod_cast hdneg
      have h2d : 2 * (d : ℝ) < 0 := by linarith
      exact mul_neg_of_neg_of_pos h2d hypos
    have hkey : x < y + (d : ℝ) ↔
        ((a : ℝ) - (b : ℝ) - (d : ℝ) ^ 2) < 2 * (d : ℝ) * y := by
      rw [lt_iff_sq_lt hx ht, hx2, expand]
      constructor <;> intro h <;> linarith
    have hkeyeq : x = y + (d : ℝ) ↔
        ((a : ℝ) - (b : ℝ) - (d : ℝ) ^ 2) = 2 * (d : ℝ) * y := by
      rw [eq_iff_sq_eq hx ht, hx2, expand]
      constructor <;> intro h <;> linarith
    constructor
    · exact iff_of_false (by simp) (by rw [hkey]; intro h; linarith)
    · exact iff_of_false (by simp) (by rw [hkeyeq]; intro h; linarith)
  · -- d < 0, d² ≤ b, L < 0: compare 4d²b with L²
    have hdneg : (d : ℚ) < 0 := lt_of_not_le hd
    have hd2b : (d : ℚ) ^ 2 ≤ (b : ℚ) := by
      rcases not_and_or.mp h1 with h | h
      · exact absurd hdneg h
      · exact le_of_not_lt h
    have hLneg : (a : ℚ) - (b : ℚ) - d ^ 2 < 0 :=
      lt_of_le_of_ne (le_of_not_lt hLpos) hL0
    have ht : (0 : ℝ) ≤ y + (d : ℝ) := by
      have h1R : ((d : ℚ) : ℝ) ^ 2 ≤ ((b : ℕ) : ℝ) := by exact_mod_cast hd2b
      have h2R : Real.sqrt ((d : ℝ) ^ 2) ≤ y := Real.sqrt_le_sqrt (by linarith)
      rw [Real.sqrt_sq_eq_abs] at h2R
      have : -(d : ℝ) ≤ |(d : ℝ)| := neg_le_abs _
      linarith
    have hLR : (a : ℝ) - (b : ℝ) - (d : ℝ) ^ 2 < 0 := by exact_mod_cast hLneg
    have hRup : 2 * (d : ℝ) * y ≤ 0 := by
      have hdR : (d : ℝ) < 0 := by exact_mod_cast hdneg
      have : 2 * (d : ℝ) ≤ 0 := by linarith
      exact mul_nonpos_of_nonpos_of_nonneg this hy
    have hR2 : (2 * (d : ℝ) * y) ^ 2 = 4 * (d : ℝ) ^ 2 * (b : ℝ) := by
      have : (2 * (d : ℝ) * y) ^ 2 = 4 * (d : ℝ) ^ 2 * y ^ 2 := by ring
      rw [this, hy2]
    have hkey : x < y + (d : ℝ) ↔
        ((a : ℝ) - (b : ℝ) - (d : ℝ) ^ 2) < 2 * (d : ℝ) * y := by
      rw [lt_iff_sq_lt hx ht, hx2, expand]
      constructor <;> intro h <;> linarith
    have hkeyeq : x = y + (d : ℝ) ↔
        ((a : ℝ) - (b : ℝ) - (d : ℝ) ^ 2) = 2 * (d : ℝ) * y := by
      rw [eq_iff_sq_eq hx ht, hx2, expand]
      constructor <;> intro h <;> linarith
    have hflip : (((a : ℝ) - (b : ℝ) - (d : ℝ) ^ 2) < 2 * (d : ℝ) * y) ↔
        (4 * (d : ℝ) ^ 2 * (b : ℝ) < ((a : ℝ) - (b : ℝ) - (d : ℝ) ^ 2) ^ 2) := by
      have hnL : (0 : ℝ) ≤ -(2 * (d : ℝ) * y) := by linarith
      have hnLL : (0 : ℝ) ≤ -((a : ℝ) - (b : ℝ) - (d : ℝ) ^ 2) := by linarith
      rw [show (((a : ℝ) - (b : ℝ) - (d : ℝ) ^ 2) < 2 * (d : ℝ) * y) ↔
          (-(2 * (d : ℝ) * y) < -((a : ℝ) - (b : ℝ) - (d : ℝ) ^ 2)) from by
        constructor <;> intro h <;> linarith]
      rw [lt_iff_sq_lt hnL hnLL]
      have e1 : (-(2 * (d : ℝ) * y)) ^ 2 = 4 * (d : ℝ) ^ 2 * (b : ℝ) := by
        rw [show (-(2 * (d : ℝ) * y)) ^ 2 = (2 * (d : ℝ) * y) ^ 2 from by ring, hR2]
      have e2 : (-((a : ℝ) - (b : ℝ) - (d : ℝ) ^ 2)) ^ 2 =
          ((a : ℝ) - (b : ℝ) - (d : ℝ) ^ 2) ^ 2 := by ring
      rw [e1, e2]
    have hflipeq : (((a : ℝ) - (b : ℝ) - (d : ℝ) ^ 2) = 2 * (d : ℝ) * y) ↔
        (4 * (d : ℝ) ^ 2 * (b : ℝ) = ((a : ℝ) - (b : ℝ) - (d : ℝ) ^ 2) ^ 2) := by
      constructor
      · intro h
        rw [h, hR2]
      · intro h
        have hnL : (0 : ℝ) ≤ -(2 * (d : ℝ) * y) := by linarith
        have hnLL : (0 : ℝ) ≤ -((a : ℝ) - (b : ℝ) - (d : ℝ) ^ 2) := by linarith
        have := (eq_iff_sq_eq hnL hnLL).mpr (by
          rw [show (-(2 * (d : ℝ) * y)) ^ 2 = (2 * (d : ℝ) * y) ^ 2 from by ring, hR2]
          rw [show (-((a : ℝ) - (b : ℝ) - (d : ℝ) ^ 2)) ^ 2 =
            ((a : ℝ) - (b : ℝ) - (d : ℝ) ^ 2) ^ 2 from by ring]
          exact h)
        linarith [this]
    constructor
    · rw [cmpQ_lt_iff, hkey, hflip]
      constructor <;> intro h <;> exact_mod_cast h
    · rw [cmpQ_eq_iff, hkeyeq, hflipeq]
      constructor <;> intro h <;> exact_mod_cast h

lemma priorityCmp_lt_iff (p q : Priority) :
    Priority.cmp p q = .lt ↔ p.toReal < q.toReal := by
  rw [Priority.cmp, (cmpSqrtAdd_correct p.hsq q.hsq (q.cost - p.cost)).1]
  unfold Priority.toReal
  push_cast
  constructor <;> intro h <;> linarith

lemma priorityCmp_eq_iff (p q : Priority) :
    Priority.cmp p q = .eq ↔ p.toReal = q.toReal := by
  rw [Priority.cmp, (cmpSqrtAdd_correct p.hsq q.hsq (q.cost - p.cost)).2]
  unfold Priority.toReal
  push_cast
  constructor <;> intro h <;> linarith

lemma toNat_coordDistSq (a b : Coord) :
    ((coordDistSq a b).toNat : ℝ) = ((coordDistSq a b : ℤ) : ℝ) := by
  have h : 0 ≤ coordDistSq a b := by
    unfold coordDistSq
    positivity
  exact_mod_cast Int.toNat_of_nonneg h

lemma natSqrtAux_spec (n : ℕ) : ∀ fuel k, k * k ≤ n → n < (k + fuel + 1) * (k + fuel + 1) →
    natSqrtAux n fuel k * natSqrtAux n fuel k ≤ n ∧
      n < (natSqrtAux n fuel k + 1) * (natSqrtAux n fuel k + 1) := by
  intro fuel
  induction fuel with
  | zero =>
    intro k hk hub
    refine ⟨hk, ?_⟩
    simpa using hub
  | succ fuel ih =>
    intro k hk hub
    unfold natSqrtAux
    by_cases h : (k + 1) * (k + 1) ≤ n
    · rw [if_pos h]
      exact ih (k + 1) h (by
        have : k + 1 + fuel + 1 = k + (fuel + 1) + 1 := by omega
        rw [this]
        exact hub)
    · rw [if_neg h]
      exact ⟨hk, lt_of_not_le h⟩

lemma natSqrt_sq (m : ℕ) : natSqrt (m ^ 2) = m := by
  unfold natSqrt
  have hsq : m ^ 2 = m * m := sq m
  have h := natSqrtAux_spec (m ^ 2) (m ^ 2) 0 (by simp) (by nlinarith)
  set r := natSqrtAux (m ^ 2) (m ^ 2) 0
  rw [hsq] at h
  rcases Nat.lt_trichotomy r m with hlt | heq | hgt
  · exfalso
    have : r + 1 ≤ m := hlt
    nlinarith [h.2]
  · exact heq
  · exfalso
    have : m + 1 ≤ r := hgt
    nlinarith [h.1]

lemma move_cost_eq_calculate_cost (c n : Cell) (g : Grid)
    (h : ∃ m : ℕ, (coordDistSq c.coords n.coords).toNat = m ^ 2) :
    (move_cost c n : ℝ) = calculate_cost c n g := by
  obtain ⟨m, hm⟩ := h
  unfold move_cost calculate_cost euclidDist
  rw [← toNat_coordDistSq, hm, natSqrt_sq]
  push_cast
  rw [Real.sqrt_sq (by positivity)]

lemma heurSq_cast (c : Coord) : ((heurSq c : ℕ) : ℝ) = ((coordDistSq c TARGET : ℤ) : ℝ) := by
  unfold heurSq coordDistSq
  have h : 0 ≤ (TARGET.1 - c.1) ^ 2 + (TARGET.2 - c.2) ^ 2 := by positivity
  exact_mod_cast Int.toNat_of_nonneg h

lemma toReal_heur (q : ℚ) (c : Coord) :
    Priority.toReal ⟨q, heurSq c⟩ = (q : ℝ) + euclidDist c TARGET := by
  unfold Priority.toReal euclidDist
  rw [heurSq_cast]

/-! ### Elementary bounds on the cost factors -/

lemma terrain_cost_ge (n : Cell) : (2 : ℚ) / 3 ≤ terrain_cost n := by
  unfold terrain_cost TERRAIN_SPEED
  cases n.terrain <;> norm_num

lemma terrain_cost_pos (n : Cell) : (0 : ℚ) < terrain_cost n :=
  lt_of_lt_of_le (by norm_num) (terrain_cost_ge n)

lemma slope_cost_ge (c n : Cell) : (1 : ℚ) ≤ slope_cost c n := by
  unfold slope_cost SLOPE_LIMIT
  have h : (0 : ℚ) ≤ |n.height - c.height| / (1 / 5) := by positivity
  linarith

lemma slope_cost_pos (c n : Cell) : (0 : ℚ) < slope_cost c n :=
  lt_of_lt_of_le (by norm_num) (slope_cost_ge c n)

lemma move_cost_nonneg (c n : Cell) : (0 : ℚ) ≤ move_cost c n := by
  unfold move_cost
  have h1 := terrain_cost_pos n
  have h2 := slope_cost_pos c n
  positivity

/-- On a unit step (squared distance 1) the move cost is at least `2/3`:
the distance factor is `1`, the terrain factor at least `1 / 1.5` and the
slope factor at least `1`. -/
lemma move_cost_ge_of_unit (c n : Cell)
    (h : (coordDistSq c.coords n.coords).toNat = 1) :
    (2 : ℚ) / 3 ≤ move_cost c n := by
  unfold move_cost
  rw [h]
  have h1 := terrain_cost_ge n
  have h2 := slope_cost_ge c n
  have h3 := terrain_cost_pos n
  calc (2 : ℚ) / 3 = (2 / 3) * 1 := by norm_num
  _ ≤ terrain_cost n * slope_cost c n := by
      apply mul_le_mul h1 h2 (by norm_num) (le_of_lt (lt_of_lt_of_le (by norm_num) h1))
  _ = (natSqrt 1 : ℚ) * terrain_cost n * slope_cost c n := by
      norm_num [show natSqrt 1 = 1 from rfl]

/-! ### Claims about the cost model -/

/-- C3: `calculate_cost current neighbor grid` equals
`distance_cost × terrain_cost × slope_cost` with
`terrain_cost = 1 / TERRAIN_SPEED neighbor.terrain`,
`slope_cost = 1 + |neighbor.height - current.height| / SLOPE_LIMIT` and
`distance_cost` the Euclidean distance of the two coordinate pairs; the result
is non-negative (the three terrain speed multipliers are strictly positive),
and the function is pure: the grid argument does not influence the value. -/
theorem claim_C3 (c n : Cell) (g g' : Grid) :
    calculate_cost c n g =
      euclidDist c.coords n.coords * ((1 / TERRAIN_SPEED n.terrain : ℚ) : ℝ) *
        ((1 + |n.height - c.height| / SLOPE_LIMIT : ℚ) : ℝ) ∧
    0 ≤ calculate_cost c n g ∧
    calculate_cost c n g = calculate_cost c n g' := by
  refine ⟨rfl, ?_, rfl⟩
  unfold calculate_cost
  have h1 : (0 : ℝ) ≤ euclidDist c.coords n.coords := Real.sqrt_nonneg _
  have h2 : (0 : ℝ) ≤ ((terrain_cost n : ℚ) : ℝ) := by
    exact_mod_cast le_of_lt (terrain_cost_pos n)
  have h3 : (0 : ℝ) ≤ ((slope_cost c n : ℚ) : ℝ) := by
    exact_mod_cast le_of_lt (slope_cost_pos c n)
  exact mul_nonneg (mul_nonneg h1 h2) h3

/-- C8: the slope factor of `calculate_cost` is symmetric in the two cells
(the absolute height difference does not depend on the direction), the terrain
factor is a function of the neighbour cell's terrain alone, and the full cost
is not symmetric in general (witnessed by a sand cell next to an asphalt
cell). -/
theorem claim_C8 :
    (∀ A B : Cell, slope_cost A B = slope_cost B A) ∧
    (∀ (A B : Cell) (g : Grid),
      calculate_cost A B g =
        euclidDist A.coords B.coords * ((1 / TERRAIN_SPEED B.terrain : ℚ) : ℝ) *
          (slope_cost A B : ℝ)) ∧
    (∃ (A B : Cell) (g : Grid),
      A.height = B.height ∧ calculate_cost A B g ≠ calculate_cost B A g) := by
  refine ⟨?_, fun A B g => rfl, ?_⟩
  · intro A B
    unfold slope_cost
    rw [abs_sub_comm]
  · refine ⟨⟨(0, 0), .sand, 0⟩, ⟨(1, 0), .asphalt, 0⟩, gridU 1, rfl, ?_⟩
    unfold calculate_cost euclidDist coordDistSq terrain_cost slope_cost TERRAIN_SPEED SLOPE_LIMIT
    norm_num [Real.sqrt_one]

/-! ### Claims about whole runs on concrete inputs -/

lemma runLoop_succ (g : Grid) (t : Coord) (n : ℕ) (s : SState) :
    runLoop g t (n + 1) s = (match stepLoop g t s with
      | .done cf cs => SearchResult.ok cf cs
      | .fail e => SearchResult.fail e
      | .cont s' => runLoop g t n s') := rfl

lemma runLoop_mono (g : Grid) (t : Coord) :
    ∀ (n : ℕ) (s : SState), runLoop g t n s ≠ SearchResult.outOfFuel →
      runLoop g t (n + 1) s = runLoop g t n s := by
  intro n
  induction n with
  | zero => intro s h; exact absurd rfl h
  | succ n ih =>
    intro s h
    rw [runLoop_succ g t (n + 1) s, runLoop_succ g t n s]
    rw [runLoop_succ g t n s] at h
    cases hs : stepLoop g t s with
    | done cf cs => rfl
    | fail e => rfl
    | cont s' =>
      rw [hs] at h
      exact ih s' h

lemma runLoop_add (g : Grid) (t : Coord) (n : ℕ) (s : SState)
    (h : runLoop g t n s ≠ SearchResult.outOfFuel) :
    ∀ k : ℕ, runLoop g t (n + k) s = runLoop g t n s := by
  intro k
  induction k with
  | zero => rfl
  | succ k ih =>
    have hne : runLoop g t (n + k) s ≠ SearchResult.outOfFuel := by rw [ih]; exact h
    rw [show n + (k + 1) = (n + k) + 1 from rfl, runLoop_mono g t (n + k) s hne, ih]

/-- C7: with `start = target`, the search pops the start immediately, breaks,
and returns `came_from = {}` and `cost_so_far = {start: 0}`; reconstruction of
that output yields the single-element path `[start]`, and the recorded cost of
the start is `0`.  This holds for any grid, any coordinate and any fuel. -/
theorem claim_C7 (g : Grid) (s : Coord) (n m : ℕ) :
    find_fastest_path g s s (n + 1) = SearchResult.ok [] [(s, 0)] ∧
    reconstruct_path [] s s m = ReconRes.ok [s] ∧
    mget [(s, (0 : ℚ))] s = some 0 := by
  refine ⟨?_, ?_, ?_⟩
  · rw [find_fastest_path, runLoop_succ]
    simp [stepLoop, initState, heappop, minEntry, eraseEntry]
  · cases m <;> simp [reconstruct_path, reconAux]
  · simp [mget]

lemma reconAux_cyclic (fuel : ℕ) (path : List Coord) :
    reconAux [(((1, 1) : Coord), ((1, 1) : Coord))] (0, 0) fuel (1, 1) path =
      ReconRes.outOfFuel := by
  induction fuel generalizing path with
  | zero => simp [reconAux]
  | succ n ih =>
    rw [reconAux]
    rw [if_neg (by decide)]
    rw [show mget [(((1, 1) : Coord), ((1, 1) : Coord))] (1, 1) = some (1, 1) from rfl]
    exact ih _

/-- C2: `reconstruct_path` does not satisfy the claim: on a predecessor map
with a cycle not containing `start` it never terminates (every finite fuel is
exhausted), and on a map in which `target` has no predecessor at all it fails
with an untyped `KeyError` rather than reporting a typed no-path condition. -/
theorem claim_C2 :
    (∀ fuel : ℕ,
      reconstruct_path [(((1, 1) : Coord), ((1, 1) : Coord))] (0, 0) (1, 1) fuel =
        ReconRes.outOfFuel) ∧
    reconstruct_path [] (0, 0) (1, 1) 7 = ReconRes.keyError (1, 1) := by
  exact ⟨fun fuel => reconAux_cyclic fuel [], by decide⟩

/-- C9: no coordinate validation exists.  With the out-of-bounds start
`(100, 0)` on a 100×100 grid the search performs a pop and a neighbour
expansion and then dies with an untyped `IndexError` reading `grid[100, 0]`;
with the out-of-bounds start `(-1, 0)` numpy wraparound silently reads
`grid[99, 0]` and the search completes as if nothing were wrong (the first
step being charged the Euclidean distance 99 from cell `(99, 0)`).  No
`InvalidCoordinateError` is ever reported. -/
theorem claim_C9 :
    find_fastest_path (gridU 100) (100, 0) (0, 0) 1 = SearchResult.fail PyErr.indexError ∧
    find_fastest_path (gridU 100) (-1, 0) (0, 0) 2 =
      SearchResult.ok [((0, 0), (-1, 0))] [((-1, 0), 0), ((0, 0), 66)] := by
  exact ⟨by decide, by decide⟩

/-- C1: the claim fails on the code — the pushed priority is `new_cost` plus
the Euclidean distance from the neighbour to the module constant
`TARGET = (50, 50)`, not to the `target` argument of the call.  Searching the
all-asphalt flat 100×100 grid from `(0, 0)` with target argument `(0, 1)`,
the first iteration pushes the entry for neighbour `(0, 1)` with priority
`2/3 + √4901` (the distance to `(50, 50)`), which is not
`2/3 + 0` (the distance to the call's target `(0, 1)`). -/
theorem claim_C1 :
    ∃ s₁ : SState,
      stepLoop (gridU 100) (0, 1) (initState (0, 0)) = StepRes.cont s₁ ∧
      ((⟨2/3, heurSq (0, 1)⟩ : Priority), ((0 : ℤ), (1 : ℤ))) ∈ s₁.open_set ∧
      Priority.toReal ⟨2/3, heurSq (0, 1)⟩ = ((2/3 : ℚ) : ℝ) + euclidDist (0, 1) TARGET ∧
      Priority.toReal ⟨2/3, heurSq (0, 1)⟩ ≠ ((2/3 : ℚ) : ℝ) + euclidDist (0, 1) (0, 1) := by
  refine ⟨⟨[(⟨2/3, 4901⟩, (1, 0)), (⟨2/3, 4901⟩, (0, 1))],
           [((1, 0), (0, 0)), ((0, 1), (0, 0))],
           [((0, 0), 0), ((1, 0), 2/3), ((0, 1), 2/3)]⟩, by decide, by decide, ?_, ?_⟩
  · exact toReal_heur (2/3) (0, 1)
  · rw [toReal_heur]
    intro h
    have h0 : euclidDist (0, 1) (0, 1) = 0 := by
      unfold euclidDist coordDistSq
      norm_num
    have h1 : 0 < euclidDist (0, 1) TARGET := by
      unfold euclidDist
      apply Real.sqrt_pos.mpr
      unfold coordDistSq TARGET
      norm_num
    rw [h0] at h
    linarith

/-- C4: the end-to-end example fails on the code.  On a 3×3 all-asphalt flat
grid with start `(0, 0)` and target `(2, 2)` the search never returns a path
of cost `4 × (1/1.5)`: the neighbour bounds test compares against the module
constant `GRID_SIZE = 100` instead of the grid's own size, so the fourth
iteration reads `grid[1, 3]` — out of bounds on a 3×3 array — and the call
dies with an `IndexError`; with no amount of fuel does it return a result. -/
theorem claim_C4 :
    find_fastest_path (gridU 3) (0, 0) (2, 2) 10 = SearchResult.fail PyErr.indexError ∧
    ∀ (fuel : ℕ) (cf : List (Coord × Coord)) (cs : List (Coord × ℚ)),
      find_fastest_path (gridU 3) (0, 0) (2, 2) fuel ≠ SearchResult.ok cf cs := by
  have h4 : find_fastest_path (gridU 3) (0, 0) (2, 2) 4 = SearchResult.fail PyErr.indexError := by
    decide
  constructor
  · decide
  · intro fuel cf cs
    rcases Nat.lt_or_ge fuel 4 with h | h
    · have h0 : find_fastest_path (gridU 3) (0, 0) (2, 2) fuel = SearchResult.outOfFuel := by
        interval_cases fuel <;> decide
      rw [h0]
      simp
    · obtain ⟨k, rfl⟩ := Nat.exists_eq_add_of_le h
      unfold find_fastest_path at h4 ⊢
      rw [runLoop_add (gridU 3) (2, 2) 4 _ (by rw [h4]; simp) k, h4]
      simp

/-! ### The cost map only improves -/

lemma mget_mset_self {α : Type} (m : List (Coord × α)) (k : Coord) (v : α) :
    mget (mset m k v) k = some v := by
  induction m with
  | nil => simp [mset, mget]
  | cons kv rest ih =>
    by_cases h : kv.1 = k
    · simp [mset, mget, h]
    · simp only [mset]
      rw [if_neg h]
      simp only [mget]
      rw [if_neg h]
      exact ih

lemma mget_mset_ne {α : Type} (m : List (Coord × α)) (k k' : Coord) (v : α)
    (h : k ≠ k') : mget (mset m k v) k' = mget m k' := by
  induction m with
  | nil => simp [mset, mget, h]
  | cons kv rest ih =>
    by_cases hk : kv.1 = k
    · simp only [mset]
      rw [if_pos hk]
      simp only [mget]
      rw [if_neg h, if_neg (hk ▸ h)]
    · simp only [mset]
      rw [if_neg hk]
      simp only [mget]
      by_cases hk' : kv.1 = k'
      · rw [if_pos hk', if_pos hk']
      · rw [if_neg hk', if_neg hk']
        exact ih

/-- Structure of one neighbour pass: either nothing happens, or (bounds hold,
both grid reads and the cost lookup succeed, the improvement guard holds and)
exactly one cost entry is written, one predecessor entry is written and one
frontier entry is pushed. -/
lemma expand1_cases (g : Grid) (cur : Coord) (s : SState) (d : ℤ × ℤ) (s' : SState)
    (h : expand1 g cur s d = .ok s') :
    s' = s ∨
    ∃ (ccost : ℚ) (curCell nb : Cell),
      ((0 ≤ cur.1 + d.1 ∧ cur.1 + d.1 < GRID_SIZE) ∧
        (0 ≤ cur.2 + d.2 ∧ cur.2 + d.2 < GRID_SIZE)) ∧
      g.get? (cur.1 + d.1) (cur.2 + d.2) = some nb ∧
      mget s.cost_so_far cur = some ccost ∧
      g.get? cur.1 cur.2 = some curCell ∧
      (mget s.cost_so_far (cur.1 + d.1, cur.2 + d.2) = none ∨
        ∃ old, mget s.cost_so_far (cur.1 + d.1, cur.2 + d.2) = some old ∧
          ccost + move_cost curCell nb < old) ∧
      s' = { open_set := heappush s.open_set
               (⟨ccost + move_cost curCell nb, heurSq (cur.1 + d.1, cur.2 + d.2)⟩,
                (cur.1 + d.1, cur.2 + d.2)),
             came_from := mset s.came_from (cur.1 + d.1, cur.2 + d.2) cur,
             cost_so_far := mset s.cost_so_far (cur.1 + d.1, cur.2 + d.2)
               (ccost + move_cost curCell nb) } := by
  unfold expand1 at h
  dsimp only at h
  by_cases hbnd : ((0 ≤ cur.1 + d.1 ∧ cur.1 + d.1 < GRID_SIZE) ∧
      (0 ≤ cur.2 + d.2 ∧ cur.2 + d.2 < GRID_SIZE))
  · rw [if_pos hbnd] at h
    cases hnb : g.get? (cur.1 + d.1) (cur.2 + d.2) with
    | none =>
      rw [hnb] at h
      exact absurd h (by simp)
    | some nb =>
      rw [hnb] at h
      dsimp only at h
      cases hcc : mget s.cost_so_far cur with
      | none =>
        rw [hcc] at h
        exact absurd h (by simp)
      | some ccost =>
        rw [hcc] at h
        dsimp only at h
        cases hcur : g.get? cur.1 cur.2 with
        | none =>
          rw [hcur] at h
          exact absurd h (by simp)
        | some curCell =>
          rw [hcur] at h
          dsimp only at h
          cases hold : mget s.cost_so_far (cur.1 + d.1, cur.2 + d.2) with
          | none =>
            rw [hold] at h
            dsimp only at h
            exact Or.inr ⟨ccost, curCell, nb, hbnd, rfl, rfl, rfl, Or.inl rfl,
              (Except.ok.inj h).symm⟩
          | some old =>
            rw [hold] at h
            dsimp only at h
            by_cases hlt : ccost + move_cost curCell nb < old
            · rw [if_pos (decide_eq_true hlt)] at h
              exact Or.inr ⟨ccost, curCell, nb, hbnd, rfl, rfl, rfl,
                Or.inr ⟨old, rfl, hlt⟩, (Except.ok.inj h).symm⟩
            · rw [if_neg (by simpa using hlt)] at h
              exact Or.inl (Except.ok.inj h).symm
  · rw [if_neg hbnd] at h
    exact Or.inl (Except.ok.inj h).symm

lemma expand1_mono (g : Grid) (cur : Coord) (s : SState) (d : ℤ × ℤ) (s' : SState)
    (h : expand1 g cur s d = .ok s') (k : Coord) (v : ℚ)
    (hk : mget s.cost_so_far k = some v) :
    ∃ v', mget s'.cost_so_far k = some v' ∧ v' ≤ v := by
  rcases expand1_cases g cur s d s' h with rfl | ⟨ccost, curCell, nb, _, _, _, _, himp, rfl⟩
  · exact ⟨v, hk, le_refl v⟩
  · by_cases hkey : (cur.1 + d.1, cur.2 + d.2) = k
    · subst hkey
      rcases himp with hnone | ⟨old, hold, hlt⟩
      · rw [hk] at hnone
        cases hnone
      · rw [hk] at hold
        have hov : old = v := (Option.some.inj hold).symm
        refine ⟨ccost + move_cost curCell nb, ?_, le_of_lt (hov ▸ hlt)⟩
        exact mget_mset_self s.cost_so_far _ _
    · refine ⟨v, ?_, le_refl v⟩
      dsimp only
      rw [mget_mset_ne s.cost_so_far _ k _ hkey]
      exact hk

lemma foldl_expand_mono (g : Grid) (cur : Coord) :
    ∀ (ds : List (ℤ × ℤ)) (s s' : SState),
      List.foldlM (expand1 g cur) s ds = Except.ok s' →
      ∀ k v, mget s.cost_so_far k = some v →
        ∃ v', mget s'.cost_so_far k = some v' ∧ v' ≤ v := by
  intro ds
  induction ds with
  | nil =>
    intro s s' h k v hk
    have hok : Except.ok (ε := PyErr) s = Except.ok s' := h
    have hs : s = s' := Except.ok.inj hok
    exact ⟨v, hs ▸ hk, le_refl v⟩
  | cons d ds ih =>
    intro s s' h k v hk
    have h1 : (expand1 g cur s d >>= fun s₁ => List.foldlM (expand1 g cur) s₁ ds) =
        Except.ok s' := h
    cases he : expand1 g cur s d with
    | error e =>
      rw [he] at h1
      exact Except.noConfusion (show (Except.error e : Except PyErr SState) =
        Except.ok s' from h1)
    | ok s₁ =>
      rw [he] at h1
      have h2 : List.foldlM (expand1 g cur) s₁ ds = Except.ok s' := h1
      obtain ⟨v₁, hv₁, hle₁⟩ := expand1_mono g cur s d s₁ he k v hk
      obtain ⟨v', hv', hle'⟩ := ih s₁ s' h2 k v₁ hv₁
      exact ⟨v', hv', le_trans hle' hle₁⟩

lemma stepLoop_mono (g : Grid) (t : Coord) (s s' : SState)
    (h : stepLoop g t s = .cont s') (k : Coord) (v : ℚ)
    (hk : mget s.cost_so_far k = some v) :
    ∃ v', mget s'.cost_so_far k = some v' ∧ v' ≤ v := by
  unfold stepLoop at h
  cases hp : heappop s.open_set with
  | none =>
    rw [hp] at h
    exact absurd h (by simp)
  | some pr =>
    rw [hp] at h
    dsimp only at h
    by_cases ht : pr.1.2 = t
    · rw [if_pos ht] at h
      exact absurd h (by simp)
    · rw [if_neg ht] at h
      cases hf : List.foldlM (expand1 g pr.1.2) { s with open_set := pr.2 } dirs with
      | error e =>
        rw [hf] at h
        exact absurd h (by simp)
      | ok s₁ =>
        rw [hf] at h
        have hs : s' = s₁ := (StepRes.cont.inj h).symm
        subst hs
        exact foldl_expand_mono g pr.1.2 dirs { s with open_set := pr.2 } s' hf k v hk

/-- C6: the recorded cost of a coordinate never increases over a run.  If the
cost map of a search state records `v` for a coordinate, then after any number
of further loop iterations it records some `v' ≤ v` — a write either leaves a
key untouched or, by the `new_cost < cost_so_far[(nx, ny)]` guard, replaces
its value by a strictly smaller one. -/
theorem claim_C6 (g : Grid) (t : Coord) (n : ℕ) (s : SState) (k : Coord) (v v' : ℚ)
    (h : mget s.cost_so_far k = some v)
    (h' : mget (iterN g t n s).cost_so_far k = some v') :
    v' ≤ v := by
  induction n generalizing s v with
  | zero =>
    rw [show iterN g t 0 s = s from rfl] at h'
    rw [h] at h'
    exact le_of_eq (Option.some.inj h').symm
  | succ n ih =>
    rw [show iterN g t (n + 1) s = (match stepLoop g t s with
      | .cont s₁ => iterN g t n s₁
      | _ => s) from rfl] at h'
    cases hs : stepLoop g t s with
    | cont s₁ =>
      rw [hs] at h'
      obtain ⟨v₁, hv₁, hle₁⟩ := stepLoop_mono g t s s₁ hs k v h
      exact le_trans (ih s₁ v₁ hv₁ h') hle₁
    | done cf cs =>
      rw [hs] at h'
      rw [h] at h'
      exact le_of_eq (Option.some.inj h').symm
    | fail e =>
      rw [hs] at h'
      rw [h] at h'
      exact le_of_eq (Option.some.inj h').symm

/-- Witness for C6 at a concrete input: one iteration on the uniform 1×1 grid
from its initial state leaves the recorded cost `0` of the start, and `0 ≤ 0`. -/
theorem claim_C6_witness :
    mget (initState ((0, 0) : Coord)).cost_so_far (0, 0) = some 0 ∧
    mget (iterN (gridU 1) (0, 0) 1 (initState (0, 0))).cost_so_far (0, 0) = some 0 ∧
    (0 : ℚ) ≤ 0 :=
  ⟨by decide, by decide, claim_C6 (gridU 1) (0, 0) 1 (initState (0, 0)) (0, 0) 0 0
    (by decide) (by decide)⟩

/-! ### Bounds safety on 100×100 grids -/

/-- A coordinate inside the `GRID_SIZE`-bounds the neighbour test enforces. -/
def InB (c : Coord) : Prop := 0 ≤ c.1 ∧ c.1 < GRID_SIZE ∧ 0 ≤ c.2 ∧ c.2 < GRID_SIZE

instance (c : Coord) : Decidable (InB c) := by
  unfold InB
  infer_instance

lemma get?_some_of_InB (g : Grid) (hsize : g.size = 100) (c : Coord) (hc : InB c) :
    ∃ cell, g.get? c.1 c.2 = some cell := by
  obtain ⟨h1, h2, h3, h4⟩ := hc
  unfold GRID_SIZE at h2 h4
  have hcond : (-(g.size : ℤ) ≤ c.1 ∧ c.1 < (g.size : ℤ)) ∧
      (-(g.size : ℤ) ≤ c.2 ∧ c.2 < (g.size : ℤ)) := by
    rw [hsize]
    push_cast
    omega
  unfold Grid.get?
  rw [if_pos hcond]
  exact ⟨_, rfl⟩

lemma mget_mset_isSome {α : Type} (m : List (Coord × α)) (k k' : Coord) (v : α)
    (h : (mget m k').isSome) : (mget (mset m k v) k').isSome := by
  by_cases hk : k = k'
  · subst hk
    rw [mget_mset_self]
    rfl
  · rw [mget_mset_ne m k k' v hk]
    exact h

lemma minEntry_mem : ∀ (l : List Entry) (e : Entry), minEntry e l ∈ e :: l := by
  intro l
  induction l with
  | nil =>
    intro e
    simp [minEntry]
  | cons x xs ih =>
    intro e
    show minEntry (if Entry.le e x then e else x) xs ∈ e :: x :: xs
    have h := ih (if Entry.le e x then e else x)
    by_cases hle : Entry.le e x
    · rw [if_pos hle] at h ⊢
      rcases List.mem_cons.mp h with h1 | h1
      · rw [h1]
        exact List.mem_cons_self e (x :: xs)
      · exact List.mem_cons_of_mem e (List.mem_cons_of_mem x h1)
    · rw [if_neg hle] at h ⊢
      rcases List.mem_cons.mp h with h1 | h1
      · rw [h1]
        exact List.mem_cons_of_mem e (List.mem_cons_self x xs)
      · exact List.mem_cons_of_mem e (List.mem_cons_of_mem x h1)

lemma eraseEntry_subset : ∀ (l : List Entry) (e x : Entry), x ∈ eraseEntry l e → x ∈ l := by
  intro l
  induction l with
  | nil =>
    intro e x h
    simp [eraseEntry] at h
  | cons y ys ih =>
    intro e x h
    rw [show eraseEntry (y :: ys) e = if y = e then ys else y :: eraseEntry ys e from rfl] at h
    by_cases hy : y = e
    · rw [if_pos hy] at h
      exact List.mem_cons_of_mem y h
    · rw [if_neg hy] at h
      rcases List.mem_cons.mp h with h1 | h1
      · exact h1 ▸ List.mem_cons_self y ys
      · exact List.mem_cons_of_mem y (ih e x h1)

lemma heappop_some (l : List Entry) (e : Entry) (rest : List Entry)
    (h : heappop l = some (e, rest)) : e ∈ l ∧ ∀ x ∈ rest, x ∈ l := by
  cases l with
  | nil => exact absurd h (by simp [heappop])
  | cons x xs =>
    have h' : (minEntry x xs, eraseEntry (x :: xs) (minEntry x xs)) = (e, rest) :=
      Option.some.inj h
    obtain ⟨he, hrest⟩ := Prod.mk.injEq _ _ _ _ ▸ h'
    constructor
    · exact he ▸ minEntry_mem xs x
    · intro y hy
      exact eraseEntry_subset (x :: xs) (minEntry x xs) y (hrest ▸ hy)

lemma expand1_ok (g : Grid) (hsize : g.size = 100) (cur : Coord) (hcur : InB cur)
    (s : SState) (hkey : (mget s.cost_so_far cur).isSome) (d : ℤ × ℤ) :
    ∃ s', expand1 g cur s d = .ok s' := by
  unfold expand1
  dsimp only
  by_cases hbnd : ((0 ≤ cur.1 + d.1 ∧ cur.1 + d.1 < GRID_SIZE) ∧
      (0 ≤ cur.2 + d.2 ∧ cur.2 + d.2 < GRID_SIZE))
  · rw [if_pos hbnd]
    obtain ⟨nb, hnb⟩ := get?_some_of_InB g hsize (cur.1 + d.1, cur.2 + d.2)
      ⟨hbnd.1.1, hbnd.1.2, hbnd.2.1, hbnd.2.2⟩
    rw [hnb]
    obtain ⟨ccost, hcc⟩ := Option.isSome_iff_exists.mp hkey
    rw [hcc]
    obtain ⟨curCell, hcur'⟩ := get?_some_of_InB g hsize cur hcur
    rw [hcur']
    dsimp only
    cases hold : mget s.cost_so_far (cur.1 + d.1, cur.2 + d.2) with
    | none => exact ⟨_, rfl⟩
    | some old =>
      by_cases hlt : ccost + move_cost curCell nb < old
      · rw [if_pos (decide_eq_true hlt)]
        exact ⟨_, rfl⟩
      · rw [if_neg (by simpa using hlt)]
        exact ⟨s, rfl⟩
  · rw [if_neg hbnd]
    exact ⟨s, rfl⟩

lemma foldl_expand_safe (g : Grid) (hsize : g.size = 100) (start : Coord)
    (cur : Coord) (hcur : InB cur) :
    ∀ (ds : List (ℤ × ℤ)) (s : SState),
      (∀ e ∈ s.open_set, e.2 = start ∨ InB e.2) →
      (∀ e ∈ s.open_set, (mget s.cost_so_far e.2).isSome) →
      (mget s.cost_so_far cur).isSome →
      ∃ s', List.foldlM (expand1 g cur) s ds = .ok s' ∧
        (∀ e ∈ s'.open_set, e.2 = start ∨ InB e.2) ∧
        (∀ e ∈ s'.open_set, (mget s'.cost_so_far e.2).isSome) ∧
        (mget s'.cost_so_far cur).isSome := by
  intro ds
  induction ds with
  | nil =>
    intro s h1 h2 h3
    exact ⟨s, rfl, h1, h2, h3⟩
  | cons d ds ih =>
    intro s h1 h2 h3
    obtain ⟨s₁, hs₁⟩ := expand1_ok g hsize cur hcur s h3 d
    have hstep : (∀ e ∈ s₁.open_set, e.2 = start ∨ InB e.2) ∧
        (∀ e ∈ s₁.open_set, (mget s₁.cost_so_far e.2).isSome) ∧
        (mget s₁.cost_so_far cur).isSome := by
      rcases expand1_cases g cur s d s₁ hs₁ with rfl | ⟨ccost, curCell, nb, hb, _, _, _, _, rfl⟩
      · exact ⟨h1, h2, h3⟩
      · refine ⟨?_, ?_, ?_⟩
        · intro e he
          rcases List.mem_append.mp he with h | h
          · exact h1 e h
          · right
            have : e = (⟨ccost + move_cost curCell nb, heurSq (cur.1 + d.1, cur.2 + d.2)⟩,
                (cur.1 + d.1, cur.2 + d.2)) := List.mem_singleton.mp h
            rw [this]
            exact ⟨hb.1.1, hb.1.2, hb.2.1, hb.2.2⟩
        · intro e he
          dsimp only
          rcases List.mem_append.mp he with h | h
          · exact mget_mset_isSome s.cost_so_far _ _ _ (h2 e h)
          · have : e = (⟨ccost + move_cost curCell nb, heurSq (cur.1 + d.1, cur.2 + d.2)⟩,
                (cur.1 + d.1, cur.2 + d.2)) := List.mem_singleton.mp h
            rw [this]
            dsimp only
            rw [mget_mset_self]
            rfl
        · exact mget_mset_isSome s.cost_so_far _ _ _ h3
    obtain ⟨s', hfold, p1, p2, p3⟩ := ih s₁ hstep.1 hstep.2.1 hstep.2.2
    refine ⟨s', ?_, p1, p2, p3⟩
    have hb : (expand1 g cur s d >>= fun s₁ => List.foldlM (expand1 g cur) s₁ ds) =
        List.foldlM (expand1 g cur) s (d :: ds) := rfl
    rw [← hb, hs₁]
    exact hfold

lemma stepLoop_safe (g : Grid) (hsize : g.size = 100) (start : Coord) (hstart : InB start)
    (t : Coord) (s : SState)
    (inv1 : ∀ e ∈ s.open_set, e.2 = start ∨ InB e.2)
    (inv2 : ∀ e ∈ s.open_set, (mget s.cost_so_far e.2).isSome) :
    (∃ cf cs, stepLoop g t s = .done cf cs) ∨
    (∃ s', stepLoop g t s = .cont s' ∧
      (∀ e ∈ s'.open_set, e.2 = start ∨ InB e.2) ∧
      (∀ e ∈ s'.open_set, (mget s'.cost_so_far e.2).isSome)) := by
  unfold stepLoop
  cases hp : heappop s.open_set with
  | none => exact Or.inl ⟨_, _, rfl⟩
  | some pr =>
    obtain ⟨⟨p, cur⟩, rest⟩ := pr
    obtain ⟨hmem, hsub⟩ := heappop_some s.open_set (p, cur) rest hp
    have hcur : InB cur := by
      rcases inv1 (p, cur) hmem with h | h
      · rw [show cur = start from h]
        exact hstart
      · exact h
    dsimp only
    by_cases ht : cur = t
    · rw [if_pos ht]
      exact Or.inl ⟨_, _, rfl⟩
    · rw [if_neg ht]
      have hkey : (mget s.cost_so_far cur).isSome := inv2 (p, cur) hmem
      obtain ⟨s', hfold, p1, p2, _⟩ := foldl_expand_safe g hsize start cur hcur dirs
        { s with open_set := rest }
        (fun e he => inv1 e (hsub e he))
        (fun e he => inv2 e (hsub e he))
        hkey
      rw [hfold]
      exact Or.inr ⟨s', rfl, p1, p2⟩

lemma runLoop_no_fail (g : Grid) (hsize : g.size = 100) (start : Coord) (hstart : InB start)
    (t : Coord) :
    ∀ (fuel : ℕ) (s : SState),
      (∀ e ∈ s.open_set, e.2 = start ∨ InB e.2) →
      (∀ e ∈ s.open_set, (mget s.cost_so_far e.2).isSome) →
      ∀ e, runLoop g t fuel s ≠ .fail e := by
  intro fuel
  induction fuel with
  | zero =>
    intro s _ _ e
    simp [runLoop]
  | succ fuel ih =>
    intro s inv1 inv2 e
    rw [runLoop_succ]
    rcases stepLoop_safe g hsize start hstart t s inv1 inv2 with ⟨cf, cs, hdone⟩ | ⟨s', hcont, p1, p2⟩
    · rw [hdone]
      simp
    · rw [hcont]
      exact ih s' p1 p2 e

lemma foldl_expand_open_ok (g : Grid) (start cur : Coord) :
    ∀ (ds : List (ℤ × ℤ)) (s s' : SState),
      List.foldlM (expand1 g cur) s ds = Except.ok s' →
      (∀ e ∈ s.open_set, e.2 = start ∨ InB e.2) →
      ∀ e ∈ s'.open_set, e.2 = start ∨ InB e.2 := by
  intro ds
  induction ds with
  | nil =>
    intro s s' h inv
    have hok : Except.ok (ε := PyErr) s = Except.ok s' := h
    have hs : s = s' := Except.ok.inj hok
    exact hs ▸ inv
  | cons d ds ih =>
    intro s s' h inv
    have h1 : (expand1 g cur s d >>= fun s₁ => List.foldlM (expand1 g cur) s₁ ds) =
        Except.ok s' := h
    cases he : expand1 g cur s d with
    | error e =>
      rw [he] at h1
      exact Except.noConfusion (show (Except.error e : Except PyErr SState) =
        Except.ok s' from h1)
    | ok s₁ =>
      rw [he] at h1
      have h2 : List.foldlM (expand1 g cur) s₁ ds = Except.ok s' := h1
      apply ih s₁ s' h2
      rcases expand1_cases g cur s d s₁ he with rfl | ⟨ccost, curCell, nb, hb, _, _, _, _, rfl⟩
      · exact inv
      · intro e hee
        rcases List.mem_append.mp hee with hmem | hmem
        · exact inv e hmem
        · right
          have hesing : e = (⟨ccost + move_cost curCell nb,
              heurSq (cur.1 + d.1, cur.2 + d.2)⟩, (cur.1 + d.1, cur.2 + d.2)) :=
            List.mem_singleton.mp hmem
          rw [hesing]
          exact ⟨hb.1.1, hb.1.2, hb.2.1, hb.2.2⟩

/-- Every coordinate the frontier ever holds is the start or lies inside the
`GRID_SIZE` bounds, on any grid: pushed coordinates all passed the bounds
test. -/
lemma iterN_open_ok (g : Grid) (start t : Coord) :
    ∀ (n : ℕ) (s : SState),
      (∀ e ∈ s.open_set, e.2 = start ∨ InB e.2) →
      ∀ e ∈ (iterN g t n s).open_set, e.2 = start ∨ InB e.2 := by
  intro n
  induction n with
  | zero => exact fun s inv => inv
  | succ n ih =>
    intro s inv
    rw [show iterN g t (n + 1) s = (match stepLoop g t s with
      | .cont s₁ => iterN g t n s₁
      | _ => s) from rfl]
    cases hs : stepLoop g t s with
    | done cf cs => exact inv
    | fail e => exact inv
    | cont s₁ =>
      apply ih s₁
      unfold stepLoop at hs
      cases hp : heappop s.open_set with
      | none =>
        rw [hp] at hs
        exact absurd hs (by simp)
      | some pr =>
        obtain ⟨⟨p, cur⟩, rest⟩ := pr
        obtain ⟨_, hsub⟩ := heappop_some s.open_set (p, cur) rest hp
        rw [hp] at hs
        dsimp only at hs
        by_cases ht : cur = t
        · rw [if_pos ht] at hs
          exact absurd hs (by simp)
        · rw [if_neg ht] at hs
          cases hf : List.foldlM (expand1 g cur) { s with open_set := rest } dirs with
          | error e =>
            rw [hf] at hs
            exact absurd hs (by simp)
          | ok s₂ =>
            rw [hf] at hs
            have hs' : StepRes.cont s₂ = StepRes.cont s₁ := hs
            have hseq : s₁ = s₂ := (StepRes.cont.inj hs').symm
            subst hseq
            exact foldl_expand_open_ok g start cur dirs { s with open_set := rest } s₁ hf
              (fun e he => inv e (hsub e he))

/-- C10: the neighbour bounds test compares against the module constant
`GRID_SIZE = 100`, not the grid argument's dimensions.  On a grid of size
exactly 100×100 with an in-bounds start every grid access of the search stays
in bounds — no run can end in an `IndexError` (or a `KeyError`), whatever the
target and fuel; indeed on any grid the frontier only ever holds the start or
`GRID_SIZE`-bounded coordinates, so all indices the search reads are the
bounds-tested ones.  The guarantee does not extend to other sizes: on the
uniform 2×2 grid the very same search reads `grid[0, 2]` and dies with an
`IndexError`. -/
theorem claim_C10 :
    (∀ (g : Grid) (start target : Coord) (fuel : ℕ) (e : PyErr),
      g.size = 100 → InB start →
      find_fastest_path g start target fuel ≠ SearchResult.fail e) ∧
    (∀ (g : Grid) (start target : Coord) (n : ℕ),
      ∀ en ∈ (iterN g target n (initState start)).open_set, en.2 = start ∨ InB en.2) ∧
    find_fastest_path (gridU 2) (0, 0) (1, 1) 2 = SearchResult.fail PyErr.indexError := by
  refine ⟨?_, ?_, by decide⟩
  · intro g start target fuel e hsize hstart
    apply runLoop_no_fail g hsize start hstart target fuel (initState start)
    · intro en hen
      simp only [initState] at hen
      have he : en = (⟨0, 0⟩, start) := List.mem_singleton.mp hen
      rw [he]
      exact Or.inl rfl
    · intro en hen
      simp only [initState] at hen
      have he : en = (⟨0, 0⟩, start) := List.mem_singleton.mp hen
      rw [he]
      simp [initState, mget]
  · intro g start target n
    apply iterN_open_ok g start target n (initState start)
    intro en hen
    simp only [initState] at hen
    have he : en = (⟨0, 0⟩, start) := List.mem_singleton.mp hen
    rw [he]
    exact Or.inl rfl

/-- Witness for C10 at a concrete input: on the uniform 100×100 grid with the
in-bounds start `(0, 0)` the one-iteration run does not raise an `IndexError`. -/
theorem claim_C10_witness :
    find_fastest_path (gridU 100) (0, 0) (0, 0) 1 ≠ SearchResult.fail PyErr.indexError :=
  claim_C10.1 (gridU 100) (0, 0) (0, 0) 1 PyErr.indexError rfl (by decide)

/-! ### Termination of the search loop

Every value the loop writes into `cost_so_far` is the weight of a concrete
walk of bounds-checked neighbour steps from the start; every write strictly
decreases the recorded value of its key; and below any bound only finitely
many such walk weights exist, because every step after the first costs at
least `2/3`.  Together these bound the number of writes, hence of pushes,
hence of iterations. -/

/-- `Reach g start n c w`: some `n`-step walk from `start` — each step a
neighbour move that passes the `GRID_SIZE` bounds test with both grid reads
succeeding — ends at `c` with total move cost `w`. -/
inductive Reach (g : Grid) (start : Coord) : ℕ → Coord → ℚ → Prop
  | init : Reach g start 0 start 0
  | step {n : ℕ} {c : Coord} {w : ℚ} {d : ℤ × ℤ} {cc nb : Cell} :
      Reach g start n c w → d ∈ dirs →
      (0 ≤ c.1 + d.1 ∧ c.1 + d.1 < GRID_SIZE) →
      (0 ≤ c.2 + d.2 ∧ c.2 + d.2 < GRID_SIZE) →
      g.get? (c.1 + d.1) (c.2 + d.2) = some nb →
      g.get? c.1 c.2 = some cc →
      Reach g start (n + 1) (c.1 + d.1, c.2 + d.2) (w + move_cost cc nb)

lemma reach_zero (g : Grid) (start : Coord) {c : Coord} {w : ℚ}
    (h : Reach g start 0 c w) : c = start ∧ w = 0 := by
  cases h
  exact ⟨rfl, rfl⟩

lemma get?_coords (g : Grid) (i j : ℤ) (hi : 0 ≤ i) (hj : 0 ≤ j) (cell : Cell)
    (h : g.get? i j = some cell) : cell.coords = (i, j) := by
  unfold Grid.get? at h
  by_cases hc : (-(g.size : ℤ) ≤ i ∧ i < (g.size : ℤ)) ∧ (-(g.size : ℤ) ≤ j ∧ j < (g.size : ℤ))
  · rw [if_pos hc] at h
    dsimp only at h
    rw [if_neg (not_lt.mpr hi), if_neg (not_lt.mpr hj)] at h
    exact congrArg Cell.coords (Option.some.inj h).symm
  · rw [if_neg hc] at h
    cases h

lemma dirs_distSq (c : Coord) (d : ℤ × ℤ) (hd : d ∈ dirs) :
    (coordDistSq c (c.1 + d.1, c.2 + d.2)).toNat = 1 := by
  fin_cases hd <;> simp [coordDistSq]

/-- Walk weights are non-negative, at least `2/3` per step after the first,
and every step ends in bounds. -/
lemma reach_bound (g : Grid) (start : Coord) :
    ∀ {n : ℕ} {c : Coord} {w : ℚ}, Reach g start n c w →
      0 ≤ w ∧ (2 / 3 : ℚ) * ((n : ℚ) - 1) ≤ w ∧ (n ≠ 0 → InB c) := by
  intro n c w h
  induction h with
  | init =>
    refine ⟨le_refl 0, by norm_num, fun h0 => absurd rfl h0⟩
  | step r hd hb1 hb2 hnb hcc ih =>
    rename_i m c' w' d cc nb
    have hmc : 0 ≤ move_cost cc nb := move_cost_nonneg cc nb
    have hInB : InB (c'.1 + d.1, c'.2 + d.2) := ⟨hb1.1, hb1.2, hb2.1, hb2.2⟩
    refine ⟨by linarith [ih.1], ?_, fun _ => hInB⟩
    cases m with
    | zero =>
      have hw : w' = 0 := (reach_zero g start r).2
      rw [hw]
      push_cast
      linarith
    | succ m' =>
      have hc'InB : InB c' := ih.2.2 (Nat.succ_ne_zero m')
      have hccco : cc.coords = (c'.1, c'.2) := get?_coords g c'.1 c'.2 hc'InB.1 hc'InB.2.2.1 cc hcc
      have hnbco : nb.coords = (c'.1 + d.1, c'.2 + d.2) :=
        get?_coords g (c'.1 + d.1) (c'.2 + d.2) hb1.1 hb2.1 nb hnb
      have hunit : (coordDistSq cc.coords nb.coords).toNat = 1 := by
        rw [hccco, hnbco]
        exact dirs_distSq (c'.1, c'.2) d hd
      have hge : (2 / 3 : ℚ) ≤ move_cost cc nb := move_cost_ge_of_unit cc nb hunit
      have hprev : (2 / 3 : ℚ) * (((m' + 1 : ℕ) : ℚ) - 1) ≤ w' := ih.2.1
      push_cast at hprev ⊢
      linarith

lemma reach_finite (g : Grid) (start : Coord) :
    ∀ n : ℕ, {p : Coord × ℚ | Reach g start n p.1 p.2}.Finite := by
  intro n
  induction n with
  | zero =>
    apply Set.Finite.subset (Set.finite_singleton (start, (0 : ℚ)))
    rintro ⟨c, w⟩ hp
    simp only [Set.mem_setOf_eq] at hp
    obtain ⟨hc, hw⟩ := reach_zero g start hp
    simp [hc, hw]
  | succ n ih =>
    have hdirs : ({d | d ∈ dirs} : Set (ℤ × ℤ)).Finite := dirs.finite_toSet
    apply Set.Finite.subset ((ih.prod hdirs).image (fun x : (Coord × ℚ) × (ℤ × ℤ) =>
      (((x.1.1).1 + x.2.1, (x.1.1).2 + x.2.2),
        x.1.2 + move_cost ((g.get? (x.1.1).1 (x.1.1).2).getD ⟨(0, 0), .sand, 0⟩)
          ((g.get? ((x.1.1).1 + x.2.1) ((x.1.1).2 + x.2.2)).getD ⟨(0, 0), .sand, 0⟩))))
    rintro ⟨c, w⟩ hp
    simp only [Set.mem_setOf_eq] at hp
    cases hp with
    | step r hd hb1 hb2 hnb hcc =>
      rename_i c' w' d cc nb
      have hmem : ((c', w'), d) ∈
          ({p : Coord × ℚ | Reach g start n p.1 p.2} ×ˢ {d | d ∈ dirs}) :=
        Set.mem_prod.mpr ⟨r, hd⟩
      have himg := Set.mem_image_of_mem (fun x : (Coord × ℚ) × (ℤ × ℤ) =>
        (((x.1.1).1 + x.2.1, (x.1.1).2 + x.2.2),
          x.1.2 + move_cost ((g.get? (x.1.1).1 (x.1.1).2).getD ⟨(0, 0), .sand, 0⟩)
            ((g.get? ((x.1.1).1 + x.2.1) ((x.1.1).2 + x.2.2)).getD ⟨(0, 0), .sand, 0⟩))) hmem
      simp only at himg
      rw [hcc, hnb] at himg
      simpa using himg


lemma reachBelow_finite (g : Grid) (start : Coord) (k : Coord) (v : ℚ) :
    {w : ℚ | (∃ n, Reach g start n k w) ∧ w < v}.Finite := by
  apply Set.Finite.subset (Set.Finite.biUnion
    (Finset.range (Nat.ceil ((3 / 2 : ℚ) * v) + 2)).finite_toSet
    (fun n _ => (reach_finite g start n).image Prod.snd))
  rintro w ⟨⟨n, r⟩, hw⟩
  have hb := reach_bound g start r
  have hn : n < Nat.ceil ((3 / 2 : ℚ) * v) + 2 := by
    by_contra hgt
    push_neg at hgt
    have h1 : (2 / 3 : ℚ) * ((n : ℚ) - 1) ≤ w := hb.2.1
    have h2 : ((Nat.ceil ((3 / 2 : ℚ) * v) + 2 : ℕ) : ℚ) ≤ (n : ℚ) := by exact_mod_cast hgt
    have h3 : (3 / 2 : ℚ) * v ≤ (Nat.ceil ((3 / 2 : ℚ) * v) : ℚ) := Nat.le_ceil _
    push_cast at h2
    linarith
  refine Set.mem_biUnion (Finset.mem_coe.mpr (Finset.mem_range.mpr hn)) ?_
  exact ⟨(k, w), r, rfl⟩

/-- All coordinates the cost map can ever hold: the `GRID_SIZE` box plus the
start itself. -/
def Kfin (start : Coord) : Finset Coord :=
  ((Finset.Icc (0 : ℤ) 99) ×ˢ (Finset.Icc (0 : ℤ) 99)) ∪ {start}

lemma mem_Kfin_of_InB (start : Coord) (c : Coord) (hc : InB c) : c ∈ Kfin start := by
  apply Finset.mem_union_left
  rw [Finset.mem_product, Finset.mem_Icc, Finset.mem_Icc]
  obtain ⟨h1, h2, h3, h4⟩ := hc
  unfold GRID_SIZE at h2 h4
  omega

lemma start_mem_Kfin (start : Coord) : start ∈ Kfin start :=
  Finset.mem_union_right _ (Finset.mem_singleton_self start)

lemma mget_none_not_mem {α : Type} (m : List (Coord × α)) (k : Coord)
    (h : mget m k = none) : k ∉ m.map Prod.fst := by
  induction m with
  | nil => simp
  | cons kv rest ih =>
    simp only [mget] at h
    by_cases hk : kv.1 = k
    · rw [if_pos hk] at h
      cases h
    · rw [if_neg hk] at h
      simp only [List.map_cons, List.mem_cons]
      rintro (h1 | h1)
      · exact hk h1.symm
      · exact ih h h1

lemma mset_of_none {α : Type} (m : List (Coord × α)) (k : Coord) (v : α)
    (h : mget m k = none) : mset m k v = m ++ [(k, v)] := by
  induction m with
  | nil => rfl
  | cons kv rest ih =>
    simp only [mget] at h
    by_cases hk : kv.1 = k
    · rw [if_pos hk] at h
      cases h
    · rw [if_neg hk] at h
      simp only [mset]
      rw [if_neg hk, ih h]
      rfl

lemma mset_map_fst_of_some {α : Type} (m : List (Coord × α)) (k : Coord) (v old : α)
    (h : mget m k = some old) : (mset m k v).map Prod.fst = m.map Prod.fst := by
  induction m with
  | nil => cases h
  | cons kv rest ih =>
    simp only [mget] at h
    by_cases hk : kv.1 = k
    · simp only [mset]
      rw [if_pos hk]
      simp [hk]
    · rw [if_neg hk] at h
      simp only [mset]
      rw [if_neg hk]
      simp only [List.map_cons]
      rw [ih h]

lemma map_sum_mset_lt (f : Coord × ℚ → ℕ) (m : List (Coord × ℚ)) (k : Coord)
    (vnew old : ℚ) (hget : mget m k = some old) (hlt : f (k, vnew) < f (k, old)) :
    ((mset m k vnew).map f).sum < (m.map f).sum := by
  induction m with
  | nil => cases hget
  | cons kv rest ih =>
    simp only [mget] at hget
    by_cases hk : kv.1 = k
    · rw [if_pos hk] at hget
      have hv : kv.2 = old := Option.some.inj hget
      simp only [mset]
      rw [if_pos hk]
      simp only [List.map_cons, List.sum_cons]
      have hkv : kv = (k, old) := Prod.ext hk hv
      rw [hkv]
      exact Nat.add_lt_add_right hlt _
    · rw [if_neg hk] at hget
      simp only [mset]
      rw [if_neg hk]
      simp only [List.map_cons, List.sum_cons]
      exact Nat.add_lt_add_left (ih hget) _

/-- Number of cells of the `GRID_SIZE` box (plus start) not yet in the cost
map: strictly drops when a new key is inserted. -/
def m1 (start : Coord) (s : SState) : ℕ :=
  ((Kfin start) \ (s.cost_so_far.map Prod.fst).toFinset).card

/-- Sum over the cost map of the number of reachable walk weights strictly
below the recorded value: strictly drops when a key is improved. -/
noncomputable def m2 (g : Grid) (start : Coord) (s : SState) : ℕ :=
  (s.cost_so_far.map (fun kv : Coord × ℚ =>
    ({w : ℚ | (∃ n, Reach g start n kv.1 w) ∧ w < kv.2}).ncard)).sum

/-- Frontier size: drops on a pop with no improvement. -/
def m3 (s : SState) : ℕ := s.open_set.length

/-- The run invariant behind the termination measure: every recorded cost is
the weight of an actual walk from the start, and every key lies in the finite
candidate set. -/
structure TermInv (g : Grid) (start : Coord) (s : SState) : Prop where
  reach : ∀ k v, mget s.cost_so_far k = some v → ∃ n, Reach g start n k v
  keys : ∀ k v, mget s.cost_so_far k = some v → k ∈ Kfin start

lemma expand1_measure (g : Grid) (start cur : Coord) (s s' : SState) (d : ℤ × ℤ)
    (hd : d ∈ dirs) (h : expand1 g cur s d = .ok s') (inv : TermInv g start s) :
    TermInv g start s' ∧
    ((s'.cost_so_far = s.cost_so_far ∧ s'.open_set = s.open_set) ∨
     (m1 start s' < m1 start s) ∨
     (m1 start s' = m1 start s ∧ m2 g start s' < m2 g start s)) := by
  rcases expand1_cases g cur s d s' h with rfl | ⟨ccost, curCell, nb, hb, hnb, hcc, hcur, himp, rfl⟩
  · exact ⟨inv, Or.inl ⟨rfl, rfl⟩⟩
  · have hInB : InB (cur.1 + d.1, cur.2 + d.2) := ⟨hb.1.1, hb.1.2, hb.2.1, hb.2.2⟩
    have hreach_new : ∃ n, Reach g start n (cur.1 + d.1, cur.2 + d.2)
        (ccost + move_cost curCell nb) := by
      obtain ⟨n, r⟩ := inv.reach cur ccost hcc
      exact ⟨n + 1, Reach.step r hd ⟨hb.1.1, hb.1.2⟩ ⟨hb.2.1, hb.2.2⟩ hnb hcur⟩
    have inv' : TermInv g start
        { open_set := heappush s.open_set
            (⟨ccost + move_cost curCell nb, heurSq (cur.1 + d.1, cur.2 + d.2)⟩,
             (cur.1 + d.1, cur.2 + d.2)),
          came_from := mset s.came_from (cur.1 + d.1, cur.2 + d.2) cur,
          cost_so_far := mset s.cost_so_far (cur.1 + d.1, cur.2 + d.2)
            (ccost + move_cost curCell nb) } := by
      constructor
      · intro k v hk
        dsimp only at hk
        by_cases hkey : (cur.1 + d.1, cur.2 + d.2) = k
        · subst hkey
          rw [mget_mset_self] at hk
          exact (Option.some.inj hk) ▸ hreach_new
        · rw [mget_mset_ne _ _ _ _ hkey] at hk
          exact inv.reach k v hk
      · intro k v hk
        dsimp only at hk
        by_cases hkey : (cur.1 + d.1, cur.2 + d.2) = k
        · subst hkey
          exact mem_Kfin_of_InB start _ hInB
        · rw [mget_mset_ne _ _ _ _ hkey] at hk
          exact inv.keys k v hk
    refine ⟨inv', ?_⟩
    rcases himp with hnone | ⟨old, hold, hlt⟩
    · -- a new key appears: m1 strictly drops
      right
      left
      unfold m1
      dsimp only
      rw [mset_of_none s.cost_so_far _ _ hnone]
      rw [List.map_append, List.toFinset_append]
      apply Finset.card_lt_card
      constructor
      · apply Finset.sdiff_subset_sdiff (le_refl _)
        intro x hx
        simp only [List.toFinset_cons, List.toFinset_nil, List.map_cons, List.map_nil,
          Finset.mem_union] at hx ⊢
        exact Or.inl hx
      · intro hsub
        have hkK : (cur.1 + d.1, cur.2 + d.2) ∈ Kfin start := mem_Kfin_of_InB start _ hInB
        have hknot : (cur.1 + d.1, cur.2 + d.2) ∉ s.cost_so_far.map Prod.fst :=
          mget_none_not_mem s.cost_so_far _ hnone
        have h1 : (cur.1 + d.1, cur.2 + d.2) ∈
            Kfin start \ (s.cost_so_far.map Prod.fst).toFinset := by
          rw [Finset.mem_sdiff]
          exact ⟨hkK, fun hm => hknot (List.mem_toFinset.mp hm)⟩
        have h2 := hsub h1
        rw [Finset.mem_sdiff] at h2
        apply h2.2
        simp
    · -- an existing key improves: m1 unchanged, m2 strictly drops
      right
      right
      constructor
      · unfold m1
        dsimp only
        rw [mset_map_fst_of_some s.cost_so_far _ _ old hold]
      · unfold m2
        dsimp only
        apply map_sum_mset_lt
        · exact hold
        · apply Set.ncard_lt_ncard
          · constructor
            · rintro w ⟨hr, hw⟩
              exact ⟨hr, lt_trans hw hlt⟩
            · intro hsub
              have hmem : (ccost + move_cost curCell nb) ∈
                  {w : ℚ | (∃ n, Reach g start n (cur.1 + d.1, cur.2 + d.2) w) ∧ w < old} :=
                ⟨hreach_new, hlt⟩
              have := hsub hmem
              exact absurd this.2 (lt_irrefl _)
          · exact reachBelow_finite g start _ old

lemma foldl_expand_measure (g : Grid) (start cur : Coord) :
    ∀ (ds : List (ℤ × ℤ)), (∀ d ∈ ds, d ∈ dirs) → ∀ (s s' : SState),
      List.foldlM (expand1 g cur) s ds = Except.ok s' → TermInv g start s →
      TermInv g start s' ∧
      ((s'.cost_so_far = s.cost_so_far ∧ s'.open_set = s.open_set) ∨
       (m1 start s' < m1 start s) ∨
       (m1 start s' = m1 start s ∧ m2 g start s' < m2 g start s)) := by
  intro ds
  induction ds with
  | nil =>
    intro _ s s' h inv
    have hok : Except.ok (ε := PyErr) s = Except.ok s' := h
    have hs : s = s' := Except.ok.inj hok
    subst hs
    exact ⟨inv, Or.inl ⟨rfl, rfl⟩⟩
  | cons d ds ih =>
    intro hds s s' h inv
    have h1 : (expand1 g cur s d >>= fun s₁ => List.foldlM (expand1 g cur) s₁ ds) =
        Except.ok s' := h
    cases he : expand1 g cur s d with
    | error e =>
      rw [he] at h1
      exact Except.noConfusion (show (Except.error e : Except PyErr SState) =
        Except.ok s' from h1)
    | ok s₁ =>
      rw [he] at h1
      have h2 : List.foldlM (expand1 g cur) s₁ ds = Except.ok s' := h1
      obtain ⟨inv₁, hdec₁⟩ :=
        expand1_measure g start cur s s₁ d (hds d (List.mem_cons_self d ds)) he inv
      obtain ⟨inv', hdec₂⟩ := ih (fun x hx => hds x (List.mem_cons_of_mem d hx)) s₁ s' h2 inv₁
      refine ⟨inv', ?_⟩
      rcases hdec₁ with ⟨hc1, ho1⟩ | hm1 | ⟨he1, hm1⟩
      · have hm1eq : m1 start s₁ = m1 start s := by unfold m1; rw [hc1]
        have hm2eq : m2 g start s₁ = m2 g start s := by unfold m2; rw [hc1]
        rcases hdec₂ with ⟨hc2, ho2⟩ | hm2 | ⟨he2, hm2⟩
        · exact Or.inl ⟨hc2.trans hc1, ho2.trans ho1⟩
        · exact Or.inr (Or.inl (hm1eq ▸ hm2))
        · exact Or.inr (Or.inr ⟨he2.trans hm1eq, hm2eq ▸ hm2⟩)
      · have hle : m1 start s' ≤ m1 start s₁ := by
          rcases hdec₂ with ⟨hc2, _⟩ | hm2 | ⟨he2, _⟩
          · unfold m1; rw [hc2]
          · exact le_of_lt hm2
          · exact le_of_eq he2
        exact Or.inr (Or.inl (lt_of_le_of_lt hle hm1))
      · rcases hdec₂ with ⟨hc2, ho2⟩ | hm2 | ⟨he2, hm2'⟩
        · have hma : m1 start s' = m1 start s₁ := by unfold m1; rw [hc2]
          have hmb : m2 g start s' = m2 g start s₁ := by unfold m2; rw [hc2]
          exact Or.inr (Or.inr ⟨hma.trans he1, hmb ▸ hm1⟩)
        · exact Or.inr (Or.inl (lt_of_lt_of_le hm2 (le_of_eq he1)))
        · exact Or.inr (Or.inr ⟨he2.trans he1, lt_trans hm2' hm1⟩)

lemma eraseEntry_length (l : List Entry) (e : Entry) (h : e ∈ l) :
    (eraseEntry l e).length + 1 = l.length := by
  induction l with
  | nil => cases h
  | cons y ys ih =>
    show (if y = e then ys else y :: eraseEntry ys e).length + 1 = ys.length + 1
    by_cases hy : y = e
    · rw [if_pos hy]
    · rw [if_neg hy]
      have he : e ∈ ys := by
        rcases List.mem_cons.mp h with h1 | h1
        · exact absurd h1.symm hy
        · exact h1
      simp only [List.length_cons]
      rw [ih he]

lemma stepLoop_measure (g : Grid) (start t : Coord) (s s' : SState)
    (h : stepLoop g t s = .cont s') (inv : TermInv g start s) :
    TermInv g start s' ∧
    ((m1 start s' < m1 start s) ∨
     (m1 start s' = m1 start s ∧ m2 g start s' < m2 g start s) ∨
     (m1 start s' = m1 start s ∧ m2 g start s' = m2 g start s ∧ m3 s' < m3 s)) := by
  unfold stepLoop at h
  cases hp : heappop s.open_set with
  | none =>
    rw [hp] at h
    exact absurd h (by simp)
  | some pr =>
    obtain ⟨⟨p, cur⟩, rest⟩ := pr
    rw [hp] at h
    dsimp only at h
    by_cases ht : cur = t
    · rw [if_pos ht] at h
      exact absurd h (by simp)
    · rw [if_neg ht] at h
      cases hf : List.foldlM (expand1 g cur) { s with open_set := rest } dirs with
      | error e =>
        rw [hf] at h
        exact absurd h (by simp)
      | ok s₁ =>
        rw [hf] at h
        have hs : s' = s₁ := (StepRes.cont.inj h).symm
        subst hs
        have hrest : rest.length + 1 = s.open_set.length := by
          cases hl : s.open_set with
          | nil =>
            rw [hl] at hp
            cases hp
          | cons x xs =>
            rw [hl] at hp
            have h' : (minEntry x xs, eraseEntry (x :: xs) (minEntry x xs)) = ((p, cur), rest) :=
              Option.some.inj hp
            have hrest' : eraseEntry (x :: xs) (minEntry x xs) = rest := congrArg Prod.snd h'
            rw [← hrest']
            exact eraseEntry_length (x :: xs) (minEntry x xs) (minEntry_mem xs x)
        have hinv₁ : TermInv g start { s with open_set := rest } := ⟨inv.reach, inv.keys⟩
        obtain ⟨inv', hdec⟩ := foldl_expand_measure g start cur dirs (fun d hd => hd)
          { s with open_set := rest } s' hf hinv₁
        refine ⟨inv', ?_⟩
        rcases hdec with ⟨hc, ho⟩ | hm | ⟨he, hm⟩
        · right
          right
          refine ⟨?_, ?_, ?_⟩
          · unfold m1
            rw [hc]
          · unfold m2
            rw [hc]
          · unfold m3
            rw [ho]
            dsimp only
            omega
        · left
          exact hm
        · right
          left
          exact ⟨he, hm⟩

lemma initState_termInv (g : Grid) (start : Coord) : TermInv g start (initState start) := by
  constructor
  · intro k v hk
    simp only [initState, mget] at hk
    by_cases hks : start = k
    · rw [if_pos hks] at hk
      subst hks
      exact ⟨0, (Option.some.inj hk) ▸ Reach.init⟩
    · rw [if_neg hks] at hk
      cases hk
  · intro k v hk
    simp only [initState, mget] at hk
    by_cases hks : start = k
    · subst hks
      exact start_mem_Kfin start
    · rw [if_neg hks] at hk
      cases hk

lemma search_halts (g : Grid) (start t : Coord) :
    ∀ (a b c : ℕ) (s : SState), TermInv g start s → m1 start s = a → m2 g start s = b →
      m3 s = c → ∃ fuel, runLoop g t fuel s ≠ SearchResult.outOfFuel := by
  intro a
  induction a using Nat.strong_induction_on with
  | _ a iha =>
    intro b
    induction b using Nat.strong_induction_on with
    | _ b ihb =>
      intro c
      induction c using Nat.strong_induction_on with
      | _ c ihc =>
        intro s inv ha hb hc
        cases hs : stepLoop g t s with
        | done cf cs =>
          refine ⟨1, ?_⟩
          rw [runLoop_succ, hs]
          simp
        | fail e =>
          refine ⟨1, ?_⟩
          rw [runLoop_succ, hs]
          simp
        | cont s' =>
          obtain ⟨inv', hdec⟩ := stepLoop_measure g start t s s' hs inv
          have hnext : ∃ fuel, runLoop g t fuel s' ≠ SearchResult.outOfFuel := by
            rcases hdec with hm | ⟨he1, hm⟩ | ⟨he1, he2, hm⟩
            · exact iha (m1 start s') (by rw [← ha]; exact hm) (m2 g start s') (m3 s')
                s' inv' rfl rfl rfl
            · exact ihb (m2 g start s') (by rw [← hb]; exact hm) (m3 s')
                s' inv' (he1.trans ha) rfl rfl
            · exact ihc (m3 s') (by rw [← hc]; exact hm)
                s' inv' (he1.trans ha) (he2.trans hb) rfl
          obtain ⟨fuel, hf⟩ := hnext
          refine ⟨fuel + 1, ?_⟩
          rw [runLoop_succ, hs]
          exact hf

/-- C5: `find_fastest_path` terminates on every grid and every pair of
coordinates, reachable target or not: some finite fuel suffices for the main
loop to finish (frontier exhausted, target popped, or a raised error), and so
the fuel-free original performs only finitely many iterations.  Every write
into `cost_so_far` strictly decreases its key's value, the values are weights
of actual walks from the start, of which only finitely many exist below any
bound because each step costs at least `2/3`; hence writes, pushes and pops
are all finite in number. -/
theorem claim_C5 (g : Grid) (start target : Coord) :
    ∃ fuel, find_fastest_path g start target fuel ≠ SearchResult.outOfFuel :=
  search_halts g start target _ _ _ (initState start) (initState_termInv g start) rfl rfl rfl
